import Mathlib

/-!
Shallow embedding of the sensitive-data masking tool
(`src/masking/src/masker.py` and `src/masking/src/scanner.py`).

Strings are modelled by Lean `String` (a list of characters), and the
Python string primitives used by the code (`strip`, `lstrip`,
`split('\n')`, `split(':', 1)`, `str.replace(old, new, 1)`,
`startswith`, `endswith`, `in`) are defined below over `List Char`.
Compiled regular expressions are modelled as boolean predicates on
strings: the matcher classes only ever call `.search`/`.match`, so a
pattern is exactly its acceptance function.
-/

namespace Masking

/-- Python's default whitespace set for `str.strip` / `str.lstrip`:
space, tab, newline, carriage return, vertical tab, form feed. -/
def isPyWs (c : Char) : Bool :=
  c = ' ' || c = '\t' || c = '\n' || c = '\r' || c = Char.ofNat 11 || c = Char.ofNat 12

/-- Quote characters stripped by `value.strip('"\'')`. -/
def isQuoteCh (c : Char) : Bool :=
  c = '"' || c = '\''

/-- Strip characters satisfying `p` from the front of a list
(Python `lstrip`). -/
def lstripL (p : Char → Bool) (l : List Char) : List Char :=
  l.dropWhile p

/-- Strip characters satisfying `p` from the back of a list
(Python `rstrip`). -/
def rstripL (p : Char → Bool) (l : List Char) : List Char :=
  (l.reverse.dropWhile p).reverse

/-- Strip characters satisfying `p` from both ends (Python `strip`). -/
def stripL (p : Char → Bool) (l : List Char) : List Char :=
  rstripL p (lstripL p l)

/-- Python `line.strip()` (default whitespace). -/
def pyStrip (s : String) : String :=
  ⟨stripL isPyWs s.toList⟩

/-- Python `line.lstrip()` (default whitespace). -/
def pyLstrip (s : String) : String :=
  ⟨lstripL isPyWs s.toList⟩

/-- Python `value.strip('"\'')`: removes every leading and trailing
single or double quote character, matching or not. -/
def pyStripQuotes (s : String) : String :=
  ⟨stripL isQuoteCh s.toList⟩

/-- Python `s.startswith(pre)`. -/
def pyStartsWith (s pre : String) : Bool :=
  pre.toList.isPrefixOf s.toList

/-- Python `s.endswith(suf)`. -/
def pyEndsWith (s suf : String) : Bool :=
  suf.toList.isSuffixOf s.toList

/-- Python `c in s` for a single character. -/
def containsChar (s : String) (c : Char) : Bool :=
  s.toList.any (fun x => x = c)

/-- Substring containment on lists (Python `sub in l`). -/
def containsL (sub : List Char) : List Char → Bool
  | [] => sub.isPrefixOf []
  | x :: xs => sub.isPrefixOf (x :: xs) || containsL sub xs

/-- Python `sub in s` for strings. -/
def containsStr (s sub : String) : Bool :=
  containsL sub.toList s.toList

/-- Python `s.split(c)` for a one-character separator: all pieces,
empty pieces kept. -/
def splitCharL (c : Char) : List Char → List (List Char)
  | [] => [[]]
  | x :: xs =>
    match splitCharL c xs with
    | [] => [[]]
    | h :: t => if x = c then [] :: h :: t else (x :: h) :: t

/-- Python `content.split('\n')`. -/
def splitLines (s : String) : List String :=
  (splitCharL '\n' s.toList).map (fun l => ⟨l⟩)

/-- Python `'\n'.join(lines)` / `sep.join`. -/
def joinWith (sep : List Char) : List (List Char) → List Char
  | [] => []
  | [l] => l
  | l :: l' :: t => l ++ sep ++ joinWith sep (l' :: t)

/-- Python `'\n'.join(lines)` on strings. -/
def joinLines (ls : List String) : String :=
  ⟨joinWith ['\n'] (ls.map String.toList)⟩

/-- Python `'.'.join(keys)`. -/
def joinDots (ls : List String) : String :=
  ⟨joinWith ['.'] (ls.map String.toList)⟩

/-- Python `s.split(c, 1)` when `c` occurs: the part before the first
occurrence of `c` and the part after it. -/
def splitOnceL (c : Char) : List Char → List Char × List Char
  | [] => ([], [])
  | x :: xs =>
    if x = c then ([], xs)
    else
      let r := splitOnceL c xs
      (x :: r.1, r.2)

/-- Python `s.replace(old, new, 1)`: replace the first occurrence of
`old` (if any) by `new`. -/
def replaceFirstL (old new : List Char) : List Char → List Char
  | [] => if old.isPrefixOf ([] : List Char) then new else []
  | x :: xs =>
    if old.isPrefixOf (x :: xs) then new ++ (x :: xs).drop old.length
    else x :: replaceFirstL old new xs

/-- Python `line.replace(old, new, 1)` on strings. -/
def replaceFirstStr (s old new : String) : String :=
  ⟨replaceFirstL old.toList new.toList s.toList⟩

/-! ## `SensitivePatternMatcher` (masker.py lines 31–86)

A compiled regex is modelled by its acceptance function. Key patterns
are used through `.search` (case-insensitive, unanchored) and value
patterns through `.match` (anchored at the start); both reduce to one
call of the predicate, so the distinction lives inside the predicate. -/

structure SensitivePatternMatcher where
  key_patterns : List (String → Bool)
  value_patterns : List (String → Bool)
  exclude_key_patterns : List (String → Bool)
  exclude_value_patterns : List (String → Bool)

/-- Embeds `SensitivePatternMatcher.is_sensitive_key` (masker.py 46–58):
exclusion patterns are checked first and short-circuit to `false`. -/
def is_sensitive_key (m : SensitivePatternMatcher) (key : String) : Bool :=
  if m.exclude_key_patterns.any (fun p => p key) then false
  else m.key_patterns.any (fun p => p key)

/-- Embeds `SensitivePatternMatcher.is_sensitive_value` (masker.py 60–75). -/
def is_sensitive_value (m : SensitivePatternMatcher) (value : String) : Bool :=
  if m.exclude_value_patterns.any (fun p => p value) then false
  else m.value_patterns.any (fun p => p value)

/-- Embeds `SensitivePatternMatcher.should_mask` (masker.py 77–86). `none`
models Python `None`; the already-masked guard is the literal test
`value.startswith("***") and value.endswith("***")`. -/
def should_mask (m : SensitivePatternMatcher) (key : String) (value : Option String) : Bool :=
  match value with
  | none => false
  | some v =>
    if v = "" then false
    else if pyStartsWith v "***" && pyEndsWith v "***" then false
    else is_sensitive_key m key || is_sensitive_value m v

/-! ## `MaskingItem` and `MaskingResult` (masker.py 13–28) -/

/-- One entry of `masked_items`: the dict
`{'line': n, 'key': k, 'original_value': v, 'type': t}`. -/
structure MaskingItem where
  line : Nat
  key : String
  original_value : String
  type : String
deriving DecidableEq, Repr

structure MaskingResult where
  file_path : String
  original_content : String
  masked_content : String
  masked_items : List MaskingItem
  error : Option String
deriving DecidableEq, Repr

/-- Embeds `MaskingResult.is_success`: `self.error is None`. -/
def MaskingResult.is_success (r : MaskingResult) : Bool :=
  r.error.isNone

/-- Embeds `MaskingResult.masked_count`. -/
def MaskingResult.masked_count (r : MaskingResult) : Nat :=
  r.masked_items.length


/-! ## `YamlMasker` (masker.py 89–160)

The Python keeps `key_stack` / `indent_stack` with the top at the END
of the list; here the top is at the HEAD, so Python `stack[-1]` is
`stack.head` and Python `stack.pop()` is `tail`. `indent_stack` starts
as `[0]`. -/

/-- Embeds the stack-adjustment loop (masker.py 122–125):
`while len(indent_stack) > 1 and current_indent <= indent_stack[-1]:
pop both stacks` (the key stack only when non-empty). -/
def yamlPop (cur : Nat) : List Nat → List String → List Nat × List String
  | [], ks => ([], ks)
  | [i], ks => ([i], ks)
  | i :: j :: rest, ks =>
    if cur ≤ i then yamlPop cur (j :: rest) ks.tail
    else (i :: j :: rest, ks)

/-- Embeds one iteration of the `YamlMasker.mask_content` loop body
(masker.py 111–158) on line number `n`: returns the output line, the
items recorded for this line, and the updated stacks. -/
def yamlStep (m : SensitivePatternMatcher) (mf : String) (n : Nat)
    (iStack : List Nat) (kStack : List String) (line : String) :
    String × List MaskingItem × List Nat × List String :=
  if pyStrip line = "" || pyStartsWith (pyStrip line) "#" then
    (line, [], iStack, kStack)
  else
    let stripped := pyLstrip line
    let currentIndent := line.length - stripped.length
    let (iS, kS) := yamlPop currentIndent iStack kStack
    if containsChar stripped ':' && !(pyStartsWith stripped "-") then
      let keyPart := pyStrip ⟨(splitOnceL ':' stripped.toList).1⟩
      let valuePart := pyStrip ⟨(splitOnceL ':' stripped.toList).2⟩
      let fullKey := if kS = [] then keyPart else joinDots (kS.reverse ++ [keyPart])
      if valuePart ≠ "" && !(pyStartsWith valuePart "#") then
        let actualValue := pyStripQuotes valuePart
        if should_mask m fullKey (some actualValue) then
          (replaceFirstStr line valuePart ("\"" ++ mf ++ "\""),
           [⟨n, fullKey, actualValue, "yaml"⟩], iS, kS)
        else (line, [], iS, kS)
      else
        (line, [], currentIndent :: iS, keyPart :: kS)
    else (line, [], iS, kS)

/-- Embeds the `for line_num, line in enumerate(lines, 1)` loop of
`YamlMasker.mask_content`. -/
def yamlGo (m : SensitivePatternMatcher) (mf : String) :
    Nat → List Nat → List String → List String → List String × List MaskingItem
  | _, _, _, [] => ([], [])
  | n, iStack, kStack, line :: rest =>
    let r := yamlStep m mf n iStack kStack line
    let rs := yamlGo m mf (n + 1) r.2.2.1 r.2.2.2 rest
    (r.1 :: rs.1, r.2.1 ++ rs.2)

/-- Embeds `YamlMasker.mask_content` (masker.py 96–160). -/
def yamlMaskContent (m : SensitivePatternMatcher) (mf : String) (content : String) :
    String × List MaskingItem :=
  let r := yamlGo m mf 1 [0] [] (splitLines content)
  (joinLines r.1, r.2)

/-! ## `PropertiesMasker` (masker.py 163–210) -/

/-- Embeds `re.match(r'^([^=:]+)[=:](.*)$', line)`: the first group is
the (non-empty) run of characters before the first `=` or `:`, the
separator is that character, the last group is the rest of the line. -/
def propSplit (l : List Char) : Option (List Char × Char × List Char) :=
  let pre := l.takeWhile (fun c => !(c = '=' || c = ':'))
  if pre.isEmpty then none
  else
    match l.drop pre.length with
    | [] => none
    | sep :: rest => some (pre, sep, rest)

/-- Embeds one iteration of the `PropertiesMasker.mask_content` loop
body (masker.py 181–208) on line number `n`. -/
def propStep (m : SensitivePatternMatcher) (mf : String) (n : Nat) (line : String) :
    String × List MaskingItem :=
  let stripped := pyStrip line
  if stripped = "" || pyStartsWith stripped "#" || pyStartsWith stripped "!" then
    (line, [])
  else
    match propSplit line.toList with
    | none => (line, [])
    | some (pre, _, rest) =>
      let key := pyStrip ⟨pre⟩
      let value := pyStrip ⟨rest⟩
      if should_mask m key (some value) then
        let separator := if containsChar line '=' then "=" else ":"
        (key ++ separator ++ mf, [⟨n, key, value, "properties"⟩])
      else (line, [])

/-- Embeds the line loop of `PropertiesMasker.mask_content`. -/
def propGo (m : SensitivePatternMatcher) (mf : String) :
    Nat → List String → List String × List MaskingItem
  | _, [] => ([], [])
  | n, line :: rest =>
    let r := propStep m mf n line
    let rs := propGo m mf (n + 1) rest
    (r.1 :: rs.1, r.2 ++ rs.2)

/-- Embeds `PropertiesMasker.mask_content` (masker.py 170–210). -/
def propMaskContent (m : SensitivePatternMatcher) (mf : String) (content : String) :
    String × List MaskingItem :=
  let r := propGo m mf 1 (splitLines content)
  (joinLines r.1, r.2)

/-! ## `EnvMasker` (masker.py 213–260) -/

/-- Start character of the identifier in `[A-Za-z_][A-Za-z0-9_]*`. -/
def isIdentStart (c : Char) : Bool :=
  ('A' ≤ c && c ≤ 'Z') || ('a' ≤ c && c ≤ 'z') || c = '_'

/-- Continuation character of `[A-Za-z0-9_]*`. -/
def isIdentCh (c : Char) : Bool :=
  isIdentStart c || ('0' ≤ c && c ≤ '9')

/-- Parses `[A-Za-z_][A-Za-z0-9_]*=` at the head of `l`, returning the
identifier and the rest after the `=`. The greedy run needs no
backtracking: identifier characters are never `=`, so the run must end
exactly where the `=` stands. -/
def envIdent (l : List Char) : Option (List Char × List Char) :=
  match l with
  | [] => none
  | c :: cs =>
    if isIdentStart c then
      let run := cs.takeWhile isIdentCh
      match cs.drop run.length with
      | '=' :: rest => some (c :: run, rest)
      | _ => none
    else none

/-- Embeds `re.match(r'^(export\s+)?([A-Za-z_][A-Za-z0-9_]*)=(.*)$', line)`:
returns (group 1 or empty, group 2, group 3). The optional
`(export\s+)?` group is tried first; if the remainder does not continue
with `identifier=`, the regex backtracks to not using the group (the
whitespace run needs no internal backtracking since `\s` characters can
start no identifier). -/
def envSplit (l : List Char) : Option (List Char × List Char × List Char) :=
  let bare := (envIdent l).map (fun kr => (([] : List Char), kr.1, kr.2))
  if ("export".toList).isPrefixOf l then
    let rest0 := l.drop 6
    let ws := rest0.takeWhile isPyWs
    if ws.isEmpty then bare
    else
      match envIdent (rest0.drop ws.length) with
      | some (k, r) => some ("export".toList ++ ws, k, r)
      | none => bare
  else bare

/-- Embeds one iteration of the `EnvMasker.mask_content` loop body
(masker.py 231–258) on line number `n`. -/
def envStep (m : SensitivePatternMatcher) (mf : String) (n : Nat) (line : String) :
    String × List MaskingItem :=
  let stripped := pyStrip line
  if stripped = "" || pyStartsWith stripped "#" then (line, [])
  else
    match envSplit line.toList with
    | none => (line, [])
    | some (exp, key, raw) =>
      let value := pyStripQuotes ⟨raw⟩
      if should_mask m ⟨key⟩ (some value) then
        ((⟨exp⟩ : String) ++ (⟨key⟩ : String) ++ "=\"" ++ mf ++ "\"",
         [⟨n, ⟨key⟩, value, "env"⟩])
      else (line, [])

/-- Embeds the line loop of `EnvMasker.mask_content`. -/
def envGo (m : SensitivePatternMatcher) (mf : String) :
    Nat → List String → List String × List MaskingItem
  | _, [] => ([], [])
  | n, line :: rest =>
    let r := envStep m mf n line
    let rs := envGo m mf (n + 1) rest
    (r.1 :: rs.1, r.2 ++ rs.2)

/-- Embeds `EnvMasker.mask_content` (masker.py 220–260). -/
def envMaskContent (m : SensitivePatternMatcher) (mf : String) (content : String) :
    String × List MaskingItem :=
  let r := envGo m mf 1 (splitLines content)
  (joinLines r.1, r.2)

/-! ## `MaskingEngine` (masker.py 263–327) -/

structure MaskingEngine where
  matcher : SensitivePatternMatcher
  mask_format : String

/-- Embeds `MaskingEngine.mask_file` (masker.py 291–327). The
dispatched `mask_content` bodies are total functions, so the
`except Exception` arm (which would return the original content with
`error` set) is never reached and the result's `error` is `none`. -/
def mask_file (eng : MaskingEngine) (file_path content : String) : MaskingResult :=
  let mi :=
    if pyEndsWith file_path ".yml" || pyEndsWith file_path ".yaml" then
      yamlMaskContent eng.matcher eng.mask_format content
    else if pyEndsWith file_path ".properties" then
      propMaskContent eng.matcher eng.mask_format content
    else if pyEndsWith file_path ".env" || containsStr file_path ".env" then
      envMaskContent eng.matcher eng.mask_format content
    else propMaskContent eng.matcher eng.mask_format content
  { file_path := file_path, original_content := content,
    masked_content := mi.1, masked_items := mi.2, error := none }


/-! ## `FileScanner` (scanner.py 16–98)

An `fnmatch` glob pattern is modelled by its acceptance function, like
the regexes above. A directory tree (what `os.walk` traverses) is a
mutually inductive rose tree: a node carries its subdirectories (name
and subtree, in walk order) and its file names. `os.walk` with the
in-place `dirs[:]` filtering visits the current directory's files
first, then recurses into each non-excluded subdirectory in order. -/

structure FileScanner where
  file_patterns : List (String → Bool)
  exclude_dirs : List String
  include_patterns : List (String → Bool)
  exclude_patterns : List (String → Bool)

/-- Embeds `FileScanner._should_exclude_dir` (scanner.py 38–40). -/
def shouldExcludeDir (sc : FileScanner) (dir_name : String) : Bool :=
  sc.exclude_dirs.contains dir_name || pyStartsWith dir_name "."

/-- Embeds `FileScanner._matches_pattern` (scanner.py 42–47). -/
def matchesPattern (filename : String) (patterns : List (String → Bool)) : Bool :=
  patterns.any (fun p => p filename)

/-- Embeds `FileScanner._should_process_file` (scanner.py 49–62). -/
def shouldProcessFile (sc : FileScanner) (file_path filename : String) : Bool :=
  if sc.exclude_patterns.any (fun p => p file_path || p filename) then false
  else if !sc.include_patterns.isEmpty then matchesPattern filename sc.include_patterns
  else matchesPattern filename sc.file_patterns

mutual
inductive FsTree where
  | node : FsForest → List String → FsTree
inductive FsForest where
  | nil : FsForest
  | cons : String → FsTree → FsForest → FsForest
end

/-- Root-relative path of a file: directory components joined with the
path separator, as `os.path.relpath(file_path, project_path)` yields
inside `scan`. -/
def relPathStr (dirs : List String) (filename : String) : String :=
  ⟨joinWith ['/'] ((dirs ++ [filename]).map String.toList)⟩

mutual
/-- Embeds `FileScanner.scan` (scanner.py 64–85) on a directory tree:
yields `(directory components, filename)` for each kept file, in walk
order. `rel` is the component path of the current directory relative
to the project root. -/
def scanTree (sc : FileScanner) (rel : List String) : FsTree → List (List String × String)
  | .node sub files =>
    files.filterMap (fun f =>
      if shouldProcessFile sc (relPathStr rel f) f then some (rel, f) else none)
    ++ scanForest sc rel sub

/-- Recursion over the (already `dirs[:]`-filtered) subdirectory list:
a subdirectory failing `_should_exclude_dir` is removed from the
frontier, so its subtree is never visited. -/
def scanForest (sc : FileScanner) (rel : List String) : FsForest → List (List String × String)
  | .nil => []
  | .cons d t rest =>
    (if shouldExcludeDir sc d then [] else scanTree sc (rel ++ [d]) t)
    ++ scanForest sc rel rest
end

/-! ## `BackupManager` (scanner.py 101–213)

The file system is explicit state: `fs` maps a path to the content of
an ordinary file, `manifests` maps the path of a `manifest.json` to
the JSON object it stores (`json.dump`/`json.load` round-trip, so the
file is modelled by the map itself), and `mem` is the instance field
`self._backup_manifest`. Python dicts preserve insertion order and
overwrite in place, which `dSet` reproduces on association lists.
`datetime.now().strftime(...)` is an input: each call takes the
timestamp string as an argument. -/

def dGet {α : Type} (d : List (String × α)) (k : String) : Option α :=
  (d.find? (fun e => e.1 = k)).map (fun e => e.2)

def dSet {α : Type} (d : List (String × α)) (k : String) (v : α) : List (String × α) :=
  if d.any (fun e => e.1 = k) then d.map (fun e => if e.1 = k then (k, v) else e)
  else d ++ [(k, v)]

/-- Python `d.update(other)`: set each of `other`'s entries in order. -/
def dUpdate {α : Type} (d other : List (String × α)) : List (String × α) :=
  other.foldl (fun acc e => dSet acc e.1 e.2) d

structure BackupManager where
  backup_dir_name : String
  suffix : String

structure BackupState where
  fs : List (String × String)
  manifests : List (String × List (String × String))
  mem : List (String × String)
deriving DecidableEq, Repr

/-- Embeds `BackupManager._get_backup_dir` (scanner.py 114–116), with
`os.path.join` as separator concatenation. -/
def getBackupDir (bm : BackupManager) (project_path : String) : String :=
  project_path ++ "/" ++ bm.backup_dir_name

/-- Path of the persisted manifest: `os.path.join(backup_dir, "manifest.json")`. -/
def manifestPath (bm : BackupManager) (project_path : String) : String :=
  getBackupDir bm project_path ++ "/manifest.json"

/-- Models `os.path.relpath(p, root)` for the scan-relevant case where
`p` lies under `root`; other inputs are returned unchanged. -/
def relpathM (p root : String) : String :=
  if (root ++ "/").toList.isPrefixOf p.toList then ⟨p.toList.drop (root.toList.length + 1)⟩
  else p

/-- Python `rel_path.replace(os.sep, '_')`. -/
def sepToUnderscore (s : String) : String :=
  ⟨s.toList.map (fun c => if c = '/' then '_' else c)⟩

/-- Embeds `BackupManager._get_backup_path` (scanner.py 118–124); the
timestamp string is passed in. -/
def getBackupPath (bm : BackupManager) (original_path project_path ts : String) : String :=
  getBackupDir bm project_path ++ "/"
    ++ sepToUnderscore (relpathM original_path project_path) ++ "_" ++ ts ++ bm.suffix

/-- Embeds `BackupManager._save_manifest` (scanner.py 149–164): load
the existing manifest at this root (empty if absent), merge the whole
in-memory manifest into it, write it back. -/
def saveManifest (bm : BackupManager) (st : BackupState) (project_path : String) : BackupState :=
  let mp := manifestPath bm project_path
  let existing := (dGet st.manifests mp).getD []
  { st with manifests := dSet st.manifests mp (dUpdate existing st.mem) }

/-- Embeds `BackupManager.create_backup` (scanner.py 126–147).
`shutil.copy2` on a missing source raises, so the copy is fallible:
`none` models that exception. -/
def create_backup (bm : BackupManager) (st : BackupState)
    (file_path project_path ts : String) : Option (BackupState × String) :=
  match dGet st.fs file_path with
  | none => none
  | some content =>
    let backup_path := getBackupPath bm file_path project_path ts
    let st1 : BackupState := { st with fs := dSet st.fs backup_path content }
    let st2 : BackupState := { st1 with mem := dSet st1.mem file_path backup_path }
    some (saveManifest bm st2 project_path, backup_path)

/-- Embeds `BackupManager.restore_all` (scanner.py 166–191): a missing
manifest yields no restores; each manifest entry whose backup file
exists is copied back over the original path, in manifest order. -/
def restore_all (bm : BackupManager) (st : BackupState) (project_path : String) :
    BackupState × List String :=
  match dGet st.manifests (manifestPath bm project_path) with
  | none => (st, [])
  | some manifest =>
    manifest.foldl (fun acc e =>
      match dGet acc.1.fs e.2 with
      | some c => ({ acc.1 with fs := dSet acc.1.fs e.1 c }, acc.2 ++ [e.1])
      | none => acc) (st, [])

/-- Embeds `BackupManager.get_latest_backup` (scanner.py 193–213). -/
def get_latest_backup (bm : BackupManager) (st : BackupState)
    (file_path project_path : String) : Option String :=
  match dGet st.manifests (manifestPath bm project_path) with
  | none => none
  | some manifest => dGet manifest file_path


/-! ## Shared concrete instances and basic lemmas -/

/-- Matcher with the single key-include pattern `password`
(unanchored search, as the engine compiles key patterns). -/
def pwMatcher : SensitivePatternMatcher :=
  ⟨[fun k => containsStr k "password"], [], [], []⟩

/-- Matcher with the single key-include pattern `TOKEN`. -/
def tokMatcher : SensitivePatternMatcher :=
  ⟨[fun k => containsStr k "TOKEN"], [], [], []⟩

/-- Matcher whose key `password` is both included and excluded, and
whose value pattern matches values starting with `hunter`. -/
def bothMatcher : SensitivePatternMatcher :=
  ⟨[fun k => containsStr k "password"], [fun v => pyStartsWith v "hunter"],
   [fun k => containsStr k "password"], []⟩

theorem mk_toList (s : String) : (⟨s.toList⟩ : String) = s := rfl

theorem splitCharL_single {c : Char} : ∀ {l : List Char}, c ∉ l → splitCharL c l = [l]
  | [], _ => rfl
  | x :: xs, h => by
    have hx : ¬ x = c := fun he => h (he ▸ List.mem_cons_self x xs)
    have hxs : c ∉ xs := fun hm => h (List.mem_cons_of_mem x hm)
    simp [splitCharL, splitCharL_single hxs, hx]

theorem splitLines_single {s : String} (h : containsChar s '\n' = false) :
    splitLines s = [s] := by
  have : '\n' ∉ s.toList := by
    intro hm
    simp [containsChar, List.any_eq_true] at h
    exact h '\n' hm rfl
  unfold splitLines
  rw [splitCharL_single this]
  simp [mk_toList]

/-! ## C1 -/

/-- C1: `MaskingEngine.mask_file` never raises — the embedded transform
is a total function — and for every file path and content the result's
`error` field is `none` (the `except` arm of masker.py 321–327, which
would return the original content unmodified, is unreachable because
every dispatched `mask_content` is total); hence "error set implies
`masked_content` is the unmodified input" holds (vacuously), and the
result is a success iff `error` is absent. -/
theorem mask_file_total_no_error (eng : MaskingEngine) (file_path content : String) :
    (mask_file eng file_path content).error = none ∧
    ((mask_file eng file_path content).error.isSome = true →
      (mask_file eng file_path content).masked_content = content) ∧
    ((mask_file eng file_path content).is_success = true ↔
      (mask_file eng file_path content).error = none) := by
  refine ⟨rfl, ?_, ?_⟩
  · intro h
    simp [mask_file] at h
  · simp [MaskingResult.is_success, mask_file]

/-! ## C2 -/

/-- C2, counterexample: on the input `spring:\n  datasource:\n    password: hunter2`
(where the `password` line is indented by four spaces) the rewritten
line keeps its four-space indentation, so it is NOT the six-space line
`      password: "***MASKED***"` stated by the claim — the claim's
quoted output line contradicts its own "indentation unchanged". -/
theorem yaml_nested_cex :
    (yamlMaskContent pwMatcher "***MASKED***"
        "spring:\n  datasource:\n    password: hunter2").1 =
      "spring:\n  datasource:\n    password: \"***MASKED***\"" ∧
    (yamlMaskContent pwMatcher "***MASKED***"
        "spring:\n  datasource:\n    password: hunter2").1 ≠
      "spring:\n  datasource:\n      password: \"***MASKED***\"" := by
  decide

/-- C2, amended: for that input exactly one item is emitted, with key
`spring.datasource.password` (the dotted path from the indentation
stack) and original value `hunter2`, and the rewritten line is
`    password: "***MASKED***"` — the original four-space indentation
unchanged. -/
theorem yaml_nested_example :
    yamlMaskContent pwMatcher "***MASKED***"
        "spring:\n  datasource:\n    password: hunter2" =
      ("spring:\n  datasource:\n    password: \"***MASKED***\"",
       [⟨3, "spring.datasource.password", "hunter2", "yaml"⟩]) := by
  decide

/-! ## C4 -/

/-- C4, counterexample: the key `password` matches both the include and
the exclude key pattern of `bothMatcher`, yet the YAML masker masks the
line `password: hunter2`, because the VALUE matches a sensitive-value
pattern (`should_mask` is `is_sensitive_key OR is_sensitive_value`).
So "a key matching both an include and an exclude key pattern is never
masked by any masker" is false. -/
theorem key_exclude_bypass_cex :
    bothMatcher.key_patterns.any (fun p => p "password") = true ∧
    bothMatcher.exclude_key_patterns.any (fun p => p "password") = true ∧
    (yamlMaskContent bothMatcher "***MASKED***" "password: hunter2").2 =
      [⟨1, "password", "hunter2", "yaml"⟩] := by
  decide

/-- C4, amended: `is_sensitive_key` returns true iff the key matches no
exclude-key pattern and matches at least one include-key pattern
(exclusion first, short-circuiting to false); consequently a key
matching an exclude key pattern is never sensitive as a key, and a
key matching both an include and an exclude key pattern is masked
only when its VALUE independently matches a sensitive-value pattern:
if the value is not sensitive, `should_mask` is false. -/
theorem is_sensitive_key_spec (m : SensitivePatternMatcher) (k v : String)
    (hx : ∃ p ∈ m.exclude_key_patterns, p k = true)
    (hv : is_sensitive_value m v = false) :
    (∀ k2, is_sensitive_key m k2 = true ↔
      ((∀ p ∈ m.exclude_key_patterns, p k2 = false) ∧
       ∃ p ∈ m.key_patterns, p k2 = true)) ∧
    is_sensitive_key m k = false ∧
    should_mask m k (some v) = false := by
  have hiff : ∀ k2, is_sensitive_key m k2 = true ↔
      ((∀ p ∈ m.exclude_key_patterns, p k2 = false) ∧
       ∃ p ∈ m.key_patterns, p k2 = true) := by
    intro k2
    by_cases hex : m.exclude_key_patterns.any (fun p => p k2) = true
    · simp only [is_sensitive_key, hex, if_true]
      constructor
      · intro h; cases h
      · rintro ⟨hall, _⟩
        obtain ⟨p, hp, hpk⟩ := List.any_eq_true.mp hex
        exact absurd (hall p hp) (by simp [hpk])
    · simp only [is_sensitive_key, hex, if_false]
      constructor
      · intro h
        refine ⟨?_, List.any_eq_true.mp h⟩
        intro p hp
        by_contra hne
        exact hex (List.any_eq_true.mpr ⟨p, hp, by simpa using hne⟩)
      · rintro ⟨_, hp⟩
        exact List.any_eq_true.mpr hp
  have hkey : is_sensitive_key m k = false := by
    obtain ⟨p, hp, hpk⟩ := hx
    have : m.exclude_key_patterns.any (fun p => p k) = true :=
      List.any_eq_true.mpr ⟨p, hp, hpk⟩
    simp [is_sensitive_key, this]
  refine ⟨hiff, hkey, ?_⟩
  unfold should_mask
  simp only [hkey, hv]
  split
  · rfl
  · split
    · rfl
    · simp [hkey, hv]

/-- C4, witness: the amended theorem applied to `bothMatcher`, the key
`password` and the non-sensitive value `x`. -/
theorem is_sensitive_key_spec_witness :
    (∀ k2, is_sensitive_key bothMatcher k2 = true ↔
      ((∀ p ∈ bothMatcher.exclude_key_patterns, p k2 = false) ∧
       ∃ p ∈ bothMatcher.key_patterns, p k2 = true)) ∧
    is_sensitive_key bothMatcher "password" = false ∧
    should_mask bothMatcher "password" (some "x") = false :=
  is_sensitive_key_spec bothMatcher "password" "x"
    ⟨fun k => containsStr k "password", by simp [bothMatcher], by decide⟩
    (by decide)


/-! ## List helper lemmas for the parser inversions -/

theorem drop_length_takeWhile (p : Char → Bool) :
    ∀ l : List Char, l.drop (l.takeWhile p).length = l.dropWhile p
  | [] => rfl
  | x :: xs => by
    by_cases hx : p x
    · simp [List.takeWhile_cons, List.dropWhile_cons, hx, drop_length_takeWhile p xs]
    · simp [List.takeWhile_cons, List.dropWhile_cons, hx]

theorem takeWhile_append_dropWhile_eq (p : Char → Bool) (l : List Char) :
    l.takeWhile p ++ l.dropWhile p = l :=
  List.takeWhile_append_dropWhile p l

theorem dropWhile_head_false {p : Char → Bool} {l : List Char} {x : Char} {xs : List Char}
    (h : l.dropWhile p = x :: xs) : p x = false := by
  induction l with
  | nil => cases h
  | cons y ys ih =>
    by_cases hy : p y
    · rw [List.dropWhile_cons_of_pos hy] at h
      exact ih h
    · rw [List.dropWhile_cons_of_neg hy] at h
      cases h
      simpa using hy

theorem dropWhile_append_all {p : Char → Bool} {a : List Char} (b : List Char)
    (hall : ∀ x ∈ a, p x = true) :
    (a ++ b).dropWhile p = b.dropWhile p := by
  induction a with
  | nil => rfl
  | cons x xs ih =>
    have hx : p x = true := hall x (List.mem_cons_self x xs)
    simp only [List.cons_append, List.dropWhile_cons_of_pos hx]
    exact ih (fun y hy => hall y (List.mem_cons_of_mem x hy))

theorem dropWhile_append_ne {p : Char → Bool} {a : List Char} (b : List Char)
    (h : a.dropWhile p ≠ []) :
    (a ++ b).dropWhile p = a.dropWhile p ++ b := by
  induction a with
  | nil => exact absurd rfl h
  | cons x xs ih =>
    by_cases hx : p x
    · rw [List.dropWhile_cons_of_pos hx] at h
      simp only [List.cons_append, List.dropWhile_cons_of_pos hx]
      exact ih h
    · simp [List.dropWhile_cons_of_neg hx]

theorem all_of_dropWhile_eq_nil {p : Char → Bool} {a : List Char}
    (h : a.dropWhile p = []) : ∀ x ∈ a, p x = true := by
  induction a with
  | nil => intro x hx; cases hx
  | cons y ys ih =>
    by_cases hy : p y
    · rw [List.dropWhile_cons_of_pos hy] at h
      intro x hx
      rcases List.mem_cons.mp hx with he | hm
      · exact he ▸ hy
      · exact ih h x hm
    · rw [List.dropWhile_cons_of_neg hy] at h
      cases h

theorem dropWhile_eq_nil_of_all {p : Char → Bool} {a : List Char}
    (hall : ∀ x ∈ a, p x = true) : a.dropWhile p = [] := by
  induction a with
  | nil => rfl
  | cons x xs ih =>
    rw [List.dropWhile_cons_of_pos (hall x (List.mem_cons_self x xs))]
    exact ih (fun y hy => hall y (List.mem_cons_of_mem x hy))

/-- Stripping both ends of a list that starts with a non-`p` character
keeps that head and right-strips the tail. -/
theorem stripL_cons {p : Char → Bool} {c : Char} (rest : List Char) (hc : p c = false) :
    stripL p (c :: rest) = c :: rstripL p rest := by
  unfold stripL lstripL rstripL
  rw [List.dropWhile_cons_of_neg (by simp [hc]), List.reverse_cons]
  by_cases hr : rest.reverse.dropWhile p = []
  · rw [dropWhile_append_all [c] (all_of_dropWhile_eq_nil hr), hr,
      List.dropWhile_cons_of_neg (by simp [hc])]
    simp
  · rw [dropWhile_append_ne [c] hr]
    simp

/-! ## Parser inversions -/

theorem envIdent_some {l k r : List Char} (h : envIdent l = some (k, r)) :
    l = k ++ '=' :: r ∧ ∃ c run, k = c :: run ∧ isIdentStart c = true ∧
      (∀ ch ∈ run, isIdentCh ch = true) := by
  cases l with
  | nil => cases h
  | cons c cs =>
    simp only [envIdent, drop_length_takeWhile] at h
    by_cases hc : isIdentStart c
    · rw [if_pos hc] at h
      split at h
      · rename_i rest heq
        simp only [Option.some.injEq, Prod.mk.injEq] at h
        obtain ⟨hk, hr⟩ := h
        subst hk
        subst hr
        refine ⟨?_, c, cs.takeWhile isIdentCh, rfl, hc, ?_⟩
        · have hsplit := takeWhile_append_dropWhile_eq isIdentCh cs
          rw [heq] at hsplit
          rw [List.cons_append]
          exact congrArg (List.cons c) hsplit.symm
        · intro ch hch
          exact List.mem_takeWhile_imp hch
      · cases h
    · rw [if_neg hc] at h
      cases h


theorem envSplit_some {l pre k r : List Char} (h : envSplit l = some (pre, k, r)) :
    l = pre ++ k ++ '=' :: r ∧
    (pre = [] ∨ ∃ ws, pre = "export".toList ++ ws ∧ ws ≠ [] ∧ ∀ c ∈ ws, isPyWs c = true) ∧
    (∃ c run, k = c :: run ∧ isIdentStart c = true ∧ ∀ ch ∈ run, isIdentCh ch = true) := by
  have hbare : ∀ (hb : (envIdent l).map
        (fun kr => (([] : List Char), kr.1, kr.2)) = some (pre, k, r)),
      l = pre ++ k ++ '=' :: r ∧
      (pre = [] ∨ ∃ ws, pre = "export".toList ++ ws ∧ ws ≠ [] ∧ ∀ c ∈ ws, isPyWs c = true) ∧
      (∃ c run, k = c :: run ∧ isIdentStart c = true ∧ ∀ ch ∈ run, isIdentCh ch = true) := by
    intro hb
    rw [Option.map_eq_some'] at hb
    obtain ⟨⟨k0, r0⟩, hk0, hval⟩ := hb
    simp only [Prod.mk.injEq] at hval
    obtain ⟨hpre, hk, hr⟩ := hval
    subst hpre
    subst hk
    subst hr
    obtain ⟨hl, hex⟩ := envIdent_some hk0
    exact ⟨by simpa using hl, Or.inl rfl, hex⟩
  simp only [envSplit] at h
  split at h
  · rename_i hp
    rw [drop_length_takeWhile] at h
    split at h
    · rename_i hw
      exact hbare h
    · rename_i hw
      split at h
      · rename_i k0 r0 heq
        simp only [Option.some.injEq, Prod.mk.injEq] at h
        obtain ⟨hpre, hk, hr⟩ := h
        subst hpre
        subst hk
        subst hr
        obtain ⟨t, ht⟩ := List.isPrefixOf_iff_prefix.mp hp
        have hdrop : l.drop 6 = t := by
          rw [← ht]
          exact List.drop_left "export".toList t
        rw [hdrop] at heq hw ⊢
        obtain ⟨hl0, hex⟩ := envIdent_some heq
        have htws := takeWhile_append_dropWhile_eq isPyWs t
        refine ⟨?_, Or.inr ⟨t.takeWhile isPyWs, rfl, ?_, ?_⟩, hex⟩
        · rw [← ht]
          conv_lhs => rw [← htws, hl0]
          simp [List.append_assoc]
        · intro he
          rw [he] at hw
          simp at hw
        · intro c hc
          exact List.mem_takeWhile_imp hc
      · exact hbare h
  · exact hbare h

theorem propSplit_some {l : List Char} {pre : List Char} {sep : Char} {rest : List Char}
    (h : propSplit l = some (pre, sep, rest)) :
    pre = l.takeWhile (fun c => !(c = '=' || c = ':')) ∧
    l = pre ++ sep :: rest ∧ (sep = '=' ∨ sep = ':') ∧ pre ≠ [] := by
  simp only [propSplit, drop_length_takeWhile] at h
  split at h
  · cases h
  · rename_i hne
    split at h
    · cases h
    · rename_i x xs heq
      simp only [Option.some.injEq, Prod.mk.injEq] at h
      obtain ⟨hpre, hsep, hrest⟩ := h
      subst hpre
      subst hsep
      subst hrest
      have hx := dropWhile_head_false heq
      have hsplit := takeWhile_append_dropWhile_eq
        (fun c => !(c = '=' || c = ':')) l
      rw [heq] at hsplit
      refine ⟨rfl, hsplit.symm, ?_, by simpa using hne⟩
      simp only [Bool.not_eq_false', Bool.or_eq_true, decide_eq_true_eq] at hx
      exact hx


theorem identStart_not_ws {c : Char} (h : isIdentStart c = true) : isPyWs c = false := by
  by_contra hws
  rw [Bool.not_eq_false] at hws
  have hc : c = ' ' ∨ c = '\t' ∨ c = '\n' ∨ c = '\r' ∨ c = Char.ofNat 11 ∨ c = Char.ofNat 12 := by
    simpa [isPyWs, or_assoc] using hws
  rcases hc with h1 | h1 | h1 | h1 | h1 | h1 <;> rw [h1] at h <;> exact absurd h (by decide)

theorem identStart_ne_hash {c : Char} (h : isIdentStart c = true) : c ≠ '#' := by
  intro he
  rw [he] at h
  exact absurd h (by decide)

theorem pyStrip_toList_of_head {line : String} {c : Char} {rest : List Char}
    (hl : line.toList = c :: rest) (hws : isPyWs c = false) :
    (pyStrip line).toList = c :: rstripL isPyWs rest := by
  show (stripL isPyWs line.toList) = _
  rw [hl, stripL_cons rest hws]

theorem pyStrip_ne_empty {line : String} {c : Char} {rest : List Char}
    (hl : line.toList = c :: rest) (hws : isPyWs c = false) :
    ¬ pyStrip line = "" := by
  intro he
  have h2 := congrArg String.toList he
  rw [pyStrip_toList_of_head hl hws] at h2
  cases h2

theorem pyStrip_not_startsWith {line : String} {c : Char} {rest : List Char}
    (hl : line.toList = c :: rest) (hws : isPyWs c = false)
    {d : Char} {s : String} (hs : s.toList = [d]) (hd : c ≠ d) :
    pyStartsWith (pyStrip line) s = false := by
  show List.isPrefixOf _ _ = false
  rw [hs, pyStrip_toList_of_head hl hws]
  simp [List.isPrefixOf, Ne.symm hd]

/-- C6, amended, general part: whenever the EnvMasker regex matches a
line (`envSplit` returns groups `pre`, `k`, `raw`), the value passed to
classification is `raw` with ALL leading and trailing quote characters
stripped (`pyStripQuotes`), and if classified the line is rewritten
double-quoted as `pre ++ k ++ "=\"" ++ mf ++ "\""`. -/
theorem env_unquote_rewrite (m : SensitivePatternMatcher) (mf : String) (n : Nat)
    (line : String) (pre k raw : List Char)
    (h : envSplit line.toList = some (pre, k, raw))
    (hm : should_mask m ⟨k⟩ (some (pyStripQuotes ⟨raw⟩)) = true)
    (hnl : containsChar line '\n' = false) :
    envStep m mf n line =
      ((⟨pre⟩ : String) ++ ⟨k⟩ ++ "=\"" ++ mf ++ "\"",
       [⟨n, ⟨k⟩, pyStripQuotes ⟨raw⟩, "env"⟩]) ∧
    envMaskContent m mf line =
      ((⟨pre⟩ : String) ++ ⟨k⟩ ++ "=\"" ++ mf ++ "\"",
       [⟨1, ⟨k⟩, pyStripQuotes ⟨raw⟩, "env"⟩]) := by
  obtain ⟨hl, hpre, c, run, hk, hcs, hrun⟩ := envSplit_some h
  have hhead : ∃ c0 rest0, line.toList = c0 :: rest0 ∧ isPyWs c0 = false ∧ c0 ≠ '#' := by
    rcases hpre with hpe | ⟨ws, hpe, hwne, hwall⟩
    · subst hpe
      subst hk
      exact ⟨c, run ++ '=' :: raw, by simpa using hl, identStart_not_ws hcs,
        identStart_ne_hash hcs⟩
    · subst hpe
      exact ⟨'e', _, by simpa using hl, by decide, by decide⟩
  obtain ⟨c0, rest0, hl0, hws0, hh0⟩ := hhead
  have hne := pyStrip_ne_empty hl0 hws0
  have hns := pyStrip_not_startsWith hl0 hws0 (s := "#") rfl hh0
  have hstep : ∀ n' : Nat, envStep m mf n' line =
      ((⟨pre⟩ : String) ++ ⟨k⟩ ++ "=\"" ++ mf ++ "\"",
       [⟨n', ⟨k⟩, pyStripQuotes ⟨raw⟩, "env"⟩]) := by
    intro n'
    simp only [envStep, h, hm, decide_eq_false hne, hns, Bool.or_self,
      Bool.false_or, Bool.or_false, if_false, if_true]
    rfl
  refine ⟨hstep n, ?_⟩
  unfold envMaskContent
  rw [splitLines_single hnl]
  show (joinLines [(envStep m mf 1 line).1], (envStep m mf 1 line).2 ++ []) = _
  rw [hstep 1]
  apply Prod.ext
  · apply String.ext
    simp [joinLines, joinWith, String.data_append]
  · simp


/-- C6, counterexample: on `TOKEN=""ab""` the EnvMasker's
`value = match.group(3).strip('"\'')` strips ALL layers of quote
characters, so the value passed to classification (and recorded as the
item's original value) is `ab`, not the one-layer-stripped `"ab"`
required by the claim. -/
theorem env_unquote_cex :
    (envMaskContent tokMatcher "***MASKED***" "TOKEN=\"\"ab\"\"").2 =
      [⟨1, "TOKEN", "ab", "env"⟩] ∧ ("ab" : String) ≠ "\"ab\"" := by
  decide

/-- C6, witness: the amended theorem at `export TOKEN=abc123`, which
rewrites to `export TOKEN="***MASKED***"`. -/
theorem env_unquote_rewrite_witness :
    envStep tokMatcher "***MASKED***" 1 "export TOKEN=abc123" =
      ("export TOKEN=\"***MASKED***\"", [⟨1, "TOKEN", "abc123", "env"⟩]) ∧
    envMaskContent tokMatcher "***MASKED***" "export TOKEN=abc123" =
      ("export TOKEN=\"***MASKED***\"", [⟨1, "TOKEN", "abc123", "env"⟩]) := by
  have h := env_unquote_rewrite tokMatcher "***MASKED***" 1 "export TOKEN=abc123"
    "export ".toList "TOKEN".toList "abc123".toList (by decide) (by decide) (by decide)
  exact ⟨by rw [h.1]; decide, by rw [h.2]; decide⟩

/-- Trimmed text before the first `=` or `:` of a line — the key a
masked properties line is rebuilt from. -/
def propKeyOf (line : String) : String :=
  pyStrip ⟨line.toList.takeWhile (fun c => !(c = '=' || c = ':'))⟩

/-- Shape of a masked properties line: rebuilt from the trimmed key,
the content-dependent separator, and the mask format. -/
theorem propStep_mask_shape (m : SensitivePatternMatcher) (mf : String) (n : Nat)
    (line : String) (hmask : (propStep m mf n line).2 ≠ []) :
    (propStep m mf n line).1 =
      propKeyOf line ++ (if containsChar line '=' then "=" else ":") ++ mf := by
  simp only [propStep] at hmask ⊢
  split at hmask
  · simp at hmask
  · rename_i hc
    rw [if_neg hc]
    split at hmask
    · simp at hmask
    · rename_i pre sep rest heq
      split at hmask
      · rename_i hsm
        rw [if_pos hsm]
        obtain ⟨hpre, _, _, _⟩ := propSplit_some heq
        show (pyStrip ⟨pre⟩ ++ _) ++ mf = _
        rw [propKeyOf, ← hpre]
      · simp at hmask

/-- C7: a masked properties line is rewritten as
`key ++ sep ++ maskFormat` with no quoting, where `sep` is `=` iff the
original line contains an `=` anywhere (else `:`), even when that
differs from the separator the key/value were parsed on (last
concrete conjunct: `password:a=b` is parsed on `:` but rewritten with
`=`); in particular `db.password=s3cr3t` becomes
`db.password=***MASKED***`. -/
theorem prop_separator_rule (m : SensitivePatternMatcher) (mf : String) (n : Nat) (line : String)
    (hmask : (propStep m mf n line).2 ≠ []) :
    (propStep m mf n line).1 =
      propKeyOf line ++ (if containsChar line '=' then "=" else ":") ++ mf ∧
    propMaskContent pwMatcher "***MASKED***" "db.password=s3cr3t" =
      ("db.password=***MASKED***", [⟨1, "db.password", "s3cr3t", "properties"⟩]) ∧
    propMaskContent pwMatcher "***MASKED***" "password:a=b" =
      ("password=***MASKED***", [⟨1, "password", "a=b", "properties"⟩]) :=
  ⟨propStep_mask_shape m mf n line hmask, by decide, by decide⟩


/-- C7, witness: the separator rule applied at `db.password=s3cr3t`. -/
theorem prop_separator_rule_witness :
    (propStep pwMatcher "***MASKED***" 1 "db.password=s3cr3t").1 =
      propKeyOf "db.password=s3cr3t" ++
        (if containsChar "db.password=s3cr3t" '=' then "=" else ":") ++ "***MASKED***" ∧
    propMaskContent pwMatcher "***MASKED***" "db.password=s3cr3t" =
      ("db.password=***MASKED***", [⟨1, "db.password", "s3cr3t", "properties"⟩]) ∧
    propMaskContent pwMatcher "***MASKED***" "password:a=b" =
      ("password=***MASKED***", [⟨1, "password", "a=b", "properties"⟩]) :=
  prop_separator_rule pwMatcher "***MASKED***" 1 "db.password=s3cr3t" (by decide)


/-! ## Lemmas about first-occurrence replacement and stripping -/

theorem splitOnceL_decomp {c : Char} :
    ∀ {l : List Char}, l.any (fun x => x = c) = true →
      l = (splitOnceL c l).1 ++ c :: (splitOnceL c l).2
  | [], h => by cases h
  | x :: xs, h => by
    by_cases hx : x = c
    · subst hx
      simp [splitOnceL]
    · have hxs : xs.any (fun y => y = c) = true := by
        rcases List.any_eq_true.mp h with ⟨y, hy, hyc⟩
        rcases List.mem_cons.mp hy with he | hm
        · exact absurd (by simpa using hyc) (he ▸ hx)
        · exact List.any_eq_true.mpr ⟨y, hm, hyc⟩
      have ih := splitOnceL_decomp hxs
      simp only [splitOnceL, if_neg hx]
      exact congrArg (List.cons x) ih

theorem rstripL_decomp (p : Char → Bool) (m : List Char) :
    m = rstripL p m ++ (m.reverse.takeWhile p).reverse := by
  conv_lhs => rw [← List.reverse_reverse m,
    ← takeWhile_append_dropWhile_eq p m.reverse]
  rw [List.reverse_append]
  rfl

theorem stripL_infix (p : Char → Bool) (l : List Char) :
    ∃ u v, l = u ++ stripL p l ++ v := by
  refine ⟨l.takeWhile p, ((l.dropWhile p).reverse.takeWhile p).reverse, ?_⟩
  conv_lhs => rw [← takeWhile_append_dropWhile_eq p l]
  rw [List.append_assoc]
  exact congrArg (l.takeWhile p ++ ·) (rstripL_decomp p (l.dropWhile p))

theorem containsL_append_self (sub b : List Char) :
    ∀ a : List Char, containsL sub (a ++ sub ++ b) = true := by
  intro a
  induction a with
  | nil =>
    have hp : sub.isPrefixOf (sub ++ b) = true :=
      List.isPrefixOf_iff_prefix.mpr (List.prefix_append sub b)
    rw [List.nil_append]
    cases hd : sub ++ b with
    | nil =>
      obtain ⟨hs, hb⟩ := List.append_eq_nil.mp hd
      rw [hs]
      rfl
    | cons x xs =>
      simp only [containsL]
      rw [← hd, hp, Bool.true_or]
  | cons x a' ih =>
    show (sub.isPrefixOf (x :: (a' ++ sub ++ b)) || containsL sub (a' ++ sub ++ b)) = true
    rw [ih, Bool.or_true]

theorem replaceFirst_spec (old rep : List Char) :
    ∀ l : List Char, containsL old l = true →
      ∃ a b, l = a ++ old ++ b ∧ replaceFirstL old rep l = a ++ rep ++ b ∧
        ∀ i, i < a.length → old.isPrefixOf (l.drop i) = false
  | [], h => by
    have hold : old = [] := by
      cases old with
      | nil => rfl
      | cons x xs => simp [containsL, List.isPrefixOf] at h
    subst hold
    exact ⟨[], [], rfl, by simp [replaceFirstL, List.isPrefixOf], by intro i hi; cases hi⟩
  | x :: xs, h => by
    by_cases hp : old.isPrefixOf (x :: xs) = true
    · obtain ⟨t, ht⟩ := List.isPrefixOf_iff_prefix.mp hp
      refine ⟨[], t, by rw [← ht]; simp, ?_, by intro i hi; cases hi⟩
      simp only [replaceFirstL, hp, if_true]
      rw [← ht, List.drop_left old t]
      simp
    · have hxs : containsL old xs = true := by
        have := h
        simp only [containsL] at this
        rcases Bool.or_eq_true_iff.mp this with h1 | h1
        · exact absurd h1 hp
        · exact h1
      obtain ⟨a, b, hl, hout, hmin⟩ := replaceFirst_spec old rep xs hxs
      refine ⟨x :: a, b, by rw [List.cons_append, List.cons_append, ← hl],
        ?_, ?_⟩
      · simp only [replaceFirstL, hp, if_false]
        rw [hout]
        rfl
      · intro i hi
        cases i with
        | zero =>
          simpa using Bool.eq_false_iff.mpr hp
        | succ j =>
          rw [List.drop_succ_cons]
          exact hmin j (Nat.lt_of_succ_lt_succ hi)


/-- Trimmed text after the first `:` of the left-stripped line — the
raw value substring a masked YAML line replaces. -/
def yamlValueOf (line : String) : String :=
  pyStrip ⟨(splitOnceL ':' (pyLstrip line).toList).2⟩

/-- C3, amended: EnvMasker keeps the export prefix and key of a masked
line byte-identical (the rewritten line extends the original's text up
to and including the `=`); YamlMasker replaces exactly the FIRST
occurrence of the raw value substring in the original line (no earlier
index starts an occurrence), which touches the key or indentation
precisely when that first occurrence lies inside them; and
PropertiesMasker rebuilds a masked line from the trimmed key, so the
leading indentation and the whitespace around the key are dropped
rather than preserved. -/
theorem masked_line_frame :
    (∀ (m : SensitivePatternMatcher) (mf : String) (n : Nat) (line : String),
      (envStep m mf n line).2 ≠ [] →
      ∃ pre k raw, line.toList = pre ++ k ++ '=' :: raw ∧
        (envStep m mf n line).1 = (⟨pre⟩ : String) ++ ⟨k⟩ ++ "=\"" ++ mf ++ "\"") ∧
    (∀ (m : SensitivePatternMatcher) (mf : String) (n : Nat)
        (iS : List Nat) (kS : List String) (line : String),
      (yamlStep m mf n iS kS line).2.1 ≠ [] →
      ∃ a b, line.toList = a ++ (yamlValueOf line).toList ++ b ∧
        (yamlStep m mf n iS kS line).1.toList = a ++ ("\"" ++ mf ++ "\"").toList ++ b ∧
        ∀ i, i < a.length →
          (yamlValueOf line).toList.isPrefixOf (line.toList.drop i) = false) ∧
    (∀ (m : SensitivePatternMatcher) (mf : String) (n : Nat) (line : String),
      (propStep m mf n line).2 ≠ [] →
      (propStep m mf n line).1 =
        propKeyOf line ++ (if containsChar line '=' then "=" else ":") ++ mf) := by
  refine ⟨?_, ?_, fun m mf n line h => propStep_mask_shape m mf n line h⟩
  · intro m mf n line hmask
    simp only [envStep] at hmask ⊢
    split at hmask
    · simp at hmask
    · rename_i hc
      rw [if_neg hc]
      split at hmask
      · simp at hmask
      · rename_i exp key raw heq
        split at hmask
        · rename_i hsm
          rw [if_pos hsm]
          obtain ⟨hl, _, _⟩ := envSplit_some heq
          exact ⟨exp, key, raw, hl, rfl⟩
        · simp at hmask
  · intro m mf n iS kS line hmask
    have hdec : ∀ hcol : (containsChar (pyLstrip line) ':'
          && !pyStartsWith (pyLstrip line) "-") = true,
        ∃ a b, line.toList = a ++ (yamlValueOf line).toList ++ b ∧
          (replaceFirstStr line (yamlValueOf line)
            ("\"" ++ mf ++ "\"")).toList = a ++ ("\"" ++ mf ++ "\"").toList ++ b ∧
          ∀ i, i < a.length →
            (yamlValueOf line).toList.isPrefixOf (line.toList.drop i) = false := by
      intro hcol
      have h1 : (pyLstrip line).toList.any (fun x => x = ':') = true :=
        (Bool.and_eq_true _ _).mp hcol |>.1
      have hsp := splitOnceL_decomp h1
      obtain ⟨u, v, hival⟩ :=
        stripL_infix isPyWs (splitOnceL ':' (pyLstrip line).toList).2
      have hlstrip : line.toList =
          line.toList.takeWhile isPyWs ++ (pyLstrip line).toList :=
        (takeWhile_append_dropWhile_eq isPyWs line.toList).symm
      have hvv : (yamlValueOf line).toList =
          stripL isPyWs (splitOnceL ':' (pyLstrip line).toList).2 := rfl
      have hline : line.toList =
          (line.toList.takeWhile isPyWs ++
            (splitOnceL ':' (pyLstrip line).toList).1 ++ ':' :: u) ++
          (yamlValueOf line).toList ++ v := by
        conv_lhs => rw [hlstrip, hsp, hival]
        rw [hvv]
        simp [List.append_assoc]
      have hcont : containsL (yamlValueOf line).toList line.toList = true := by
        rw [hline]
        exact containsL_append_self _ _ _
      exact replaceFirst_spec (yamlValueOf line).toList
        ("\"" ++ mf ++ "\"").toList line.toList hcont
    rcases hstep : yamlStep m mf n iS kS line with ⟨out, items, iS2, kS2⟩
    rw [hstep] at hmask
    simp only [yamlStep] at hstep
    split at hstep
    · injection hstep with e1 e2
      injection e2 with e3 e4
      exact absurd e3.symm hmask
    · split at hstep
      · rename_i hcol
        split at hstep
        · split at hstep
          · split at hstep
            · injection hstep with e1 e2
              obtain ⟨a, b, h1', h2', h3'⟩ := hdec hcol
              exact ⟨a, b, h1', by rw [← e1]; exact h2', h3'⟩
            · injection hstep with e1 e2
              injection e2 with e3 e4
              exact absurd e3.symm hmask
          · split at hstep
            · injection hstep with e1 e2
              obtain ⟨a, b, h1', h2', h3'⟩ := hdec hcol
              exact ⟨a, b, h1', by rw [← e1]; exact h2', h3'⟩
            · injection hstep with e1 e2
              injection e2 with e3 e4
              exact absurd e3.symm hmask
        · injection hstep with e1 e2
          injection e2 with e3 e4
          exact absurd e3.symm hmask
      · injection hstep with e1 e2
        injection e2 with e3 e4
        exact absurd e3.symm hmask


/-- C3, counterexample: both lines are masked (items non-empty), yet
for YAML the first occurrence of the value `pass` lies inside the key
`password`, so the rewritten line is `"***MASKED***"word: pass` — the
key text is changed and the value is untouched; and for Properties the
masked line drops the line's leading space (` password = x` becomes
`password=***MASKED***`), so indentation is not preserved. -/
theorem masked_line_frame_cex :
    (yamlMaskContent pwMatcher "***MASKED***" "password: pass").1 =
      "\"***MASKED***\"word: pass" ∧
    (yamlMaskContent pwMatcher "***MASKED***" "password: pass").2 ≠ [] ∧
    (propMaskContent pwMatcher "***MASKED***" " password = x").1 =
      "password=***MASKED***" ∧
    (propMaskContent pwMatcher "***MASKED***" " password = x").2 ≠ [] := by
  decide

/-- C3, witness: the amended frame theorem applied to one concrete
masked line per masker. -/
theorem masked_line_frame_witness :
    (∃ pre k raw, ("export TOKEN=abc123" : String).toList = pre ++ k ++ '=' :: raw ∧
      (envStep tokMatcher "***MASKED***" 1 "export TOKEN=abc123").1 =
        (⟨pre⟩ : String) ++ ⟨k⟩ ++ "=\"" ++ "***MASKED***" ++ "\"") ∧
    (∃ a b, ("password: hunter2" : String).toList =
        a ++ (yamlValueOf "password: hunter2").toList ++ b ∧
      (yamlStep pwMatcher "***MASKED***" 1 [0] [] "password: hunter2").1.toList =
        a ++ ("\"" ++ "***MASKED***" ++ "\"").toList ++ b ∧
      ∀ i, i < a.length → (yamlValueOf "password: hunter2").toList.isPrefixOf
        (("password: hunter2" : String).toList.drop i) = false) ∧
    (propStep pwMatcher "***MASKED***" 1 "db.password=s3cr3t").1 =
      propKeyOf "db.password=s3cr3t" ++
        (if containsChar "db.password=s3cr3t" '=' then "=" else ":") ++ "***MASKED***" :=
  ⟨masked_line_frame.1 tokMatcher "***MASKED***" 1 "export TOKEN=abc123" (by decide),
   masked_line_frame.2.1 pwMatcher "***MASKED***" 1 [0] [] "password: hunter2" (by decide),
   masked_line_frame.2.2 pwMatcher "***MASKED***" 1 "db.password=s3cr3t" (by decide)⟩


/-! ## Support lemmas for the idempotence analysis -/

theorem identCh_not_ws {c : Char} (h : isIdentCh c = true) : isPyWs c = false := by
  by_contra hws
  rw [Bool.not_eq_false] at hws
  have hc : c = ' ' ∨ c = '\t' ∨ c = '\n' ∨ c = '\r' ∨ c = Char.ofNat 11 ∨ c = Char.ofNat 12 := by
    simpa [isPyWs, or_assoc] using hws
  rcases hc with h1 | h1 | h1 | h1 | h1 | h1 <;> rw [h1] at h <;> exact absurd h (by decide)

theorem takeWhile_append_stop {p : Char → Bool} {a : List Char} {c : Char} (b : List Char)
    (hall : ∀ x ∈ a, p x = true) (hc : p c = false) :
    (a ++ c :: b).takeWhile p = a := by
  induction a with
  | nil => simp [List.takeWhile_cons, hc]
  | cons x xs ih =>
    have hx : p x = true := hall x (List.mem_cons_self x xs)
    simp only [List.cons_append, List.takeWhile_cons, hx, if_true]
    rw [ih (fun y hy => hall y (List.mem_cons_of_mem x hy))]

theorem envIdent_shape {c : Char} {run Q : List Char}
    (hc : isIdentStart c = true) (hrun : ∀ ch ∈ run, isIdentCh ch = true) :
    envIdent (c :: (run ++ '=' :: Q)) = some (c :: run, Q) := by
  simp only [envIdent, if_pos hc]
  rw [takeWhile_append_stop Q hrun (by decide), List.drop_left run ('=' :: Q)]
  rfl

theorem rstripL_cons_of_neg {p : Char → Bool} {c : Char} (rest : List Char)
    (hc : p c = false) :
    rstripL p (c :: rest) = c :: rstripL p rest := by
  have h := stripL_cons (p := p) (c := c) rest hc
  unfold stripL lstripL at h
  rw [List.dropWhile_cons_of_neg (by simp [hc])] at h
  exact h

/-- A list that begins and ends with non-`p` characters strips to itself. -/
theorem stripL_eq_of_ends {p : Char → Bool} {l : List Char} {c1 c2 : Char}
    {t i : List Char} (hl1 : l = c1 :: t) (hl2 : l = i ++ [c2])
    (h1 : p c1 = false) (h2 : p c2 = false) :
    stripL p l = l := by
  unfold stripL lstripL
  rw [hl1, List.dropWhile_cons_of_neg (by simp [h1]), ← hl1, hl2]
  unfold rstripL
  rw [List.reverse_append, List.reverse_singleton, List.singleton_append,
    List.dropWhile_cons_of_neg (by simp [h2])]
  simp

theorem pyStartsWith_star3 {mf : String} (h : pyStartsWith mf "***" = true) :
    ∃ t, mf.toList = '*' :: '*' :: '*' :: t := by
  obtain ⟨t, ht⟩ := List.isPrefixOf_iff_prefix.mp h
  exact ⟨t, by rw [← ht]; rfl⟩

theorem pyEndsWith_star3 {mf : String} (h : pyEndsWith mf "***" = true) :
    ∃ i, mf.toList = i ++ ['*'] := by
  obtain ⟨i, hi⟩ := List.isSuffixOf_iff_suffix.mp h
  exact ⟨i ++ ['*', '*'], by rw [← hi]; simp⟩

theorem pyStrip_star (mf : String) (hm1 : pyStartsWith mf "***" = true)
    (hm2 : pyEndsWith mf "***" = true) : pyStrip mf = mf := by
  obtain ⟨t, ht⟩ := pyStartsWith_star3 hm1
  obtain ⟨i, hi⟩ := pyEndsWith_star3 hm2
  show (⟨stripL isPyWs mf.toList⟩ : String) = mf
  rw [stripL_eq_of_ends ht hi (by decide) (by decide), mk_toList]

/-- The already-masked guard of `should_mask` fires on any value that
starts and ends with `***`, whatever the key is. -/
theorem should_mask_star_guard (m : SensitivePatternMatcher) (k : String) {v : String}
    (h1 : pyStartsWith v "***" = true) (h2 : pyEndsWith v "***" = true) :
    should_mask m k (some v) = false := by
  obtain ⟨t, ht⟩ := pyStartsWith_star3 h1
  have hne : v ≠ "" := by
    intro he
    rw [he] at ht
    cases ht
  simp only [should_mask, if_neg hne, h1, h2, Bool.and_self, if_pos]


/-- Re-parsing a rewritten env line recovers the same groups: the
regex match of `exp ++ key ++ '=' ++ Q` is exactly `(exp, key, Q)`
when `exp` is a well-formed (possibly empty) export prefix and `key`
a well-formed identifier. -/
theorem envSplit_roundtrip {exp key Q : List Char}
    (hexp : exp = [] ∨ ∃ ws, exp = "export".toList ++ ws ∧ ws ≠ [] ∧
      ∀ c ∈ ws, isPyWs c = true)
    (hkey : ∃ c run, key = c :: run ∧ isIdentStart c = true ∧
      ∀ ch ∈ run, isIdentCh ch = true) :
    envSplit (exp ++ (key ++ '=' :: Q)) = some (exp, key, Q) := by
  obtain ⟨c, run, hk, hc, hrun⟩ := hkey
  have hkeyAll : ∀ ch ∈ key, isIdentCh ch = true := by
    intro ch hch
    rw [hk] at hch
    rcases List.mem_cons.mp hch with he | hm
    · subst he
      simp [isIdentCh, hc]
    · exact hrun ch hm
  have hident : envIdent (key ++ '=' :: Q) = some (key, Q) := by
    rw [hk, List.cons_append]
    exact envIdent_shape hc hrun
  rcases hexp with hexp | ⟨ws, hexp, hwne, hwall⟩
  · subst hexp
    rw [List.nil_append]
    simp only [envSplit]
    by_cases hp : ("export".toList).isPrefixOf (key ++ '=' :: Q) = true
    · rw [if_pos hp]
      by_cases hlen : key.length ≤ 5
      · exfalso
        obtain ⟨t, ht⟩ := List.isPrefixOf_iff_prefix.mp hp
        have htake : (key ++ '=' :: Q).take 6 = "export".toList := by
          rw [← ht, show (6 : Nat) = ("export".toList).length from rfl]
          exact List.take_left "export".toList t
        have hmem : ('=' : Char) ∈ (key ++ '=' :: Q).take 6 := by
          rw [List.take_append_eq_append_take]
          obtain ⟨m0, hm0⟩ : ∃ m0, 6 - key.length = m0 + 1 :=
            ⟨5 - key.length, by omega⟩
          rw [hm0]
          simp
        rw [htake] at hmem
        exact absurd hmem (by decide)
      · have hdrop : (key ++ '=' :: Q).drop 6 = key.drop 6 ++ '=' :: Q :=
          List.drop_append_of_le_length (by omega)
        rw [hdrop]
        have hws0 : (key.drop 6 ++ '=' :: Q).takeWhile isPyWs = [] := by
          cases hkd : key.drop 6 with
          | nil =>
            rw [List.nil_append]
            simp [List.takeWhile_cons, show isPyWs '=' = false from by decide]
          | cons d ds =>
            have hd : isPyWs d = false := by
              apply identCh_not_ws
              apply hkeyAll
              exact List.mem_of_mem_drop (by rw [hkd]; exact List.mem_cons_self d ds)
            simp [List.takeWhile_cons, hd]
        rw [hws0]
        simp only [List.isEmpty_nil, if_true]
        rw [hident]
        rfl
    · rw [if_neg hp]
      rw [hident]
      rfl
  · subst hexp
    rw [show ("export".toList ++ ws) ++ (key ++ '=' :: Q) =
      "export".toList ++ (ws ++ (key ++ '=' :: Q)) from by simp [List.append_assoc]]
    simp only [envSplit]
    have hp : ("export".toList).isPrefixOf
        ("export".toList ++ (ws ++ (key ++ '=' :: Q))) = true :=
      List.isPrefixOf_iff_prefix.mpr ⟨_, rfl⟩
    rw [if_pos hp]
    have hdrop : ("export".toList ++ (ws ++ (key ++ '=' :: Q))).drop 6 =
        ws ++ (key ++ '=' :: Q) := by
      rw [show (6 : Nat) = ("export".toList).length from rfl]
      exact List.drop_left _ _
    rw [hdrop]
    have hws : (ws ++ (key ++ '=' :: Q)).takeWhile isPyWs = ws := by
      rw [hk, List.cons_append]
      exact takeWhile_append_stop _ hwall (identStart_not_ws hc)
    rw [hws]
    have hwe : ws.isEmpty = false := by
      cases ws with
      | nil => exact absurd rfl hwne
      | cons a as => rfl
    rw [hwe]
    simp only [Bool.false_eq_true, if_false]
    rw [List.drop_left ws, hident]


/-- Unquoting the rewritten env value `"mf"` gives back `mf` when `mf`
is `***`-wrapped (quote-stripping stops at the `*`s). -/
theorem quote_wrap_strip {mf : String}
    (hm1 : pyStartsWith mf "***" = true) (hm2 : pyEndsWith mf "***" = true) :
    pyStripQuotes ⟨'"' :: (mf.toList ++ ['"'])⟩ = mf := by
  obtain ⟨t, ht⟩ := pyStartsWith_star3 hm1
  obtain ⟨i, hi⟩ := pyEndsWith_star3 hm2
  show (⟨stripL isQuoteCh ('"' :: (mf.toList ++ ['"']))⟩ : String) = mf
  unfold stripL lstripL
  rw [List.dropWhile_cons_of_pos (by decide)]
  have h1 : (mf.toList ++ ['"']).dropWhile isQuoteCh = mf.toList ++ ['"'] := by
    rw [ht, List.cons_append, List.dropWhile_cons_of_neg (by decide)]
  rw [h1]
  unfold rstripL
  rw [List.reverse_append, List.reverse_singleton, List.singleton_append,
    List.dropWhile_cons_of_pos (by decide)]
  have h2 : mf.toList.reverse.dropWhile isQuoteCh = mf.toList.reverse := by
    rw [hi, List.reverse_append, List.reverse_singleton, List.singleton_append,
      List.dropWhile_cons_of_neg (by decide)]
  rw [h2, List.reverse_reverse, mk_toList]

/-- Re-running EnvMasker on an already-processed line records nothing
when the mask format is `***`-wrapped. -/
theorem envStep_idem (m : SensitivePatternMatcher) {mf : String}
    (hm1 : pyStartsWith mf "***" = true) (hm2 : pyEndsWith mf "***" = true)
    (n n' : Nat) (line : String) :
    (envStep m mf n' ((envStep m mf n line).1)).2 = [] := by
  rcases hstep : envStep m mf n line with ⟨out, items⟩
  simp only [envStep] at hstep
  split at hstep
  · rename_i hc
    injection hstep with e1 e2
    subst e1
    show (envStep m mf n' line).2 = []
    simp only [envStep]
    rw [if_pos hc]
  · rename_i hc
    split at hstep
    · rename_i heq
      injection hstep with e1 e2
      subst e1
      show (envStep m mf n' line).2 = []
      simp only [envStep]
      rw [if_neg hc, heq]
    · rename_i exp key raw heq
      split at hstep
      · rename_i hsm
        injection hstep with e1 e2
        subst e1
        obtain ⟨hl, hexp, hkey⟩ := envSplit_some heq
        have houtl : ((⟨exp⟩ : String) ++ ⟨key⟩ ++ "=\"" ++ mf ++ "\"").toList =
            exp ++ (key ++ '=' :: ('"' :: (mf.toList ++ ['"']))) := by
          show ((⟨exp⟩ : String) ++ ⟨key⟩ ++ "=\"" ++ mf ++ "\"").data = _
          rw [String.data_append, String.data_append, String.data_append,
            String.data_append]
          rw [show ("=\"" : String).data = ['=', '"'] from rfl,
            show ("\"" : String).data = ['"'] from rfl]
          simp [List.append_assoc]
        have hhead : ∃ c0 rest0,
            ((⟨exp⟩ : String) ++ ⟨key⟩ ++ "=\"" ++ mf ++ "\"").toList = c0 :: rest0 ∧
            isPyWs c0 = false ∧ c0 ≠ '#' := by
          obtain ⟨c, run, hk, hcs, hrun⟩ := hkey
          rcases hexp with hpe | ⟨ws, hpe, hwne, hwall⟩
          · subst hpe
            subst hk
            exact ⟨c, run ++ '=' :: '\"' :: (mf.toList ++ ['\"']),
              by rw [houtl]; rfl, identStart_not_ws hcs, identStart_ne_hash hcs⟩
          · subst hpe
            exact ⟨'e', 'x' :: 'p' :: 'o' :: 'r' :: 't' ::
                (ws ++ (key ++ '=' :: '\"' :: (mf.toList ++ ['\"']))),
              by rw [houtl]; rfl, by decide, by decide⟩
        obtain ⟨c0, rest0, hl0, hws0, hh0⟩ := hhead
        have hne := pyStrip_ne_empty hl0 hws0
        have hns := pyStrip_not_startsWith hl0 hws0 (s := "#") rfl hh0
        simp only [envStep, decide_eq_false hne, hns, Bool.or_self,
          Bool.false_or, Bool.or_false, if_false]
        rw [houtl, envSplit_roundtrip hexp hkey]
        show (if should_mask m ⟨key⟩
            (some (pyStripQuotes ⟨'"' :: (mf.toList ++ ['"'])⟩)) = true
          then _ else _ : String × List MaskingItem).2 = []
        rw [quote_wrap_strip hm1 hm2, should_mask_star_guard m ⟨key⟩ hm1 hm2]
        rfl
      · rename_i hsm
        injection hstep with e1 e2
        subst e1
        show (envStep m mf n' line).2 = []
        simp only [envStep]
        rw [if_neg hc, heq]
        show (if should_mask m ⟨key⟩ (some (pyStripQuotes ⟨raw⟩)) = true
          then ((⟨exp⟩ : String) ++ ⟨key⟩ ++ "=\"" ++ mf ++ "\"",
            [MaskingItem.mk n' ⟨key⟩ (pyStripQuotes ⟨raw⟩) "env"])
          else (line, [])).2 = []
        rw [if_neg hsm]


theorem dropWhile_takeWhile_comm {p q : Char → Bool}
    (himp : ∀ c, p c = true → q c = true) :
    ∀ l : List Char, (l.takeWhile q).dropWhile p = (l.dropWhile p).takeWhile q
  | [] => rfl
  | x :: xs => by
    by_cases hpx : p x
    · have hqx : q x = true := himp x hpx
      rw [List.takeWhile_cons_of_pos hqx, List.dropWhile_cons_of_pos hpx,
        List.dropWhile_cons_of_pos hpx]
      exact dropWhile_takeWhile_comm himp xs
    · rw [List.dropWhile_cons_of_neg hpx]
      by_cases hqx : q x
      · rw [List.takeWhile_cons_of_pos hqx, List.dropWhile_cons_of_neg hpx]
      · rw [List.takeWhile_cons_of_neg hqx]
        rfl

theorem takeWhile_head {q : Char → Bool} {l : List Char} {c : Char} {t : List Char}
    (h : l.takeWhile q = c :: t) : l.head? = some c := by
  cases l with
  | nil => cases h
  | cons x xs =>
    by_cases hx : q x
    · rw [List.takeWhile_cons_of_pos hx] at h
      cases h
      rfl
    · rw [List.takeWhile_cons_of_neg hx] at h
      cases h

theorem rstripL_head {p : Char → Bool} {l : List Char} {c : Char} {t : List Char}
    (h : rstripL p l = c :: t) : l.head? = some c := by
  have hd := rstripL_decomp p l
  rw [h] at hd
  rw [hd]
  rfl

theorem stripL_head_false {p : Char → Bool} {l : List Char} {c : Char} {t : List Char}
    (h : stripL p l = c :: t) : p c = false := by
  have h2 : (lstripL p l) = c :: (t ++ ((lstripL p l).reverse.takeWhile p).reverse) := by
    have hd := rstripL_decomp p (lstripL p l)
    rw [show rstripL p (lstripL p l) = stripL p l from rfl, h] at hd
    simpa using hd
  exact dropWhile_head_false h2

theorem mem_stripL {p : Char → Bool} {l : List Char} {x : Char}
    (h : x ∈ stripL p l) : x ∈ l := by
  have h1 : x ∈ lstripL p l := by
    have hd := rstripL_decomp p (lstripL p l)
    rw [hd]
    exact List.mem_append_left _ h
  have h2 := takeWhile_append_dropWhile_eq p l
  rw [← h2]
  exact List.mem_append_right _ h1

theorem pyWs_not_sep {c : Char} (h : isPyWs c = true) :
    (!(c = '=' || c = ':') : Bool) = true := by
  have hc : c = ' ' ∨ c = '\t' ∨ c = '\n' ∨ c = '\r' ∨ c = Char.ofNat 11 ∨ c = Char.ofNat 12 := by
    simpa [isPyWs, or_assoc] using h
  rcases hc with h1 | h1 | h1 | h1 | h1 | h1 <;> subst h1 <;> decide

theorem ne_of_not_startsWith {s : String} {c : Char} {t : List Char}
    (hs : s.toList = c :: t) {d : Char} {ss : String} (hss : ss.toList = [d])
    (h : pyStartsWith s ss = false) : c ≠ d := by
  intro he
  subst he
  apply absurd h
  rw [Bool.not_eq_false]
  show List.isPrefixOf _ _ = true
  rw [hss, hs]
  simp [List.isPrefixOf]


/-- Re-running PropertiesMasker on an already-processed line records
nothing when the mask format is `***`-wrapped. -/
theorem propStep_idem (m : SensitivePatternMatcher) {mf : String}
    (hm1 : pyStartsWith mf "***" = true) (hm2 : pyEndsWith mf "***" = true)
    (n n' : Nat) (line : String) :
    (propStep m mf n' ((propStep m mf n line).1)).2 = [] := by
  rcases hstep : propStep m mf n line with ⟨out, items⟩
  simp only [propStep] at hstep
  split at hstep
  · rename_i hc
    injection hstep with e1 e2
    subst e1
    show (propStep m mf n' line).2 = []
    simp only [propStep]
    rw [if_pos hc]
  · rename_i hc
    split at hstep
    · rename_i heq
      injection hstep with e1 e2
      subst e1
      show (propStep m mf n' line).2 = []
      simp only [propStep]
      rw [if_neg hc, heq]
    · rename_i pre sep rest heq
      have hmain : ∀ sepc : Char, sepc = '=' ∨ sepc = ':' →
          (propStep m mf n' (pyStrip ⟨pre⟩ ++ (⟨[sepc]⟩ : String) ++ mf)).2 = [] := by
        intro sepc hsepor
        have hsepws : isPyWs sepc = false := by
          rcases hsepor with h | h <;> subst h <;> decide
        have hsepq : (!(sepc = '=' || sepc = ':') : Bool) = false := by
          rcases hsepor with h | h <;> subst h <;> decide
        have hseph : sepc ≠ '#' := by
          rcases hsepor with h | h <;> subst h <;> decide
        have hsepb : sepc ≠ '!' := by
          rcases hsepor with h | h <;> subst h <;> decide
        obtain ⟨hpre, hdecomp, hsepor0, hprene⟩ := propSplit_some heq
        cases hkl : (pyStrip (⟨pre⟩ : String)).toList with
        | nil =>
          have houtl : (pyStrip ⟨pre⟩ ++ (⟨[sepc]⟩ : String) ++ mf).toList =
              sepc :: mf.toList := by
            show (pyStrip ⟨pre⟩ ++ (⟨[sepc]⟩ : String) ++ mf).data = _
            rw [String.data_append, String.data_append,
              show (pyStrip (⟨pre⟩ : String)).data = [] from hkl]
            rfl
          have hne := pyStrip_ne_empty houtl hsepws
          have hns := pyStrip_not_startsWith houtl hsepws (s := "#") rfl hseph
          have hnb := pyStrip_not_startsWith houtl hsepws (s := "!") rfl hsepb
          simp only [propStep, decide_eq_false hne, hns, hnb, Bool.or_self,
            Bool.or_false, Bool.false_or, if_false]
          rw [houtl]
          have hps : propSplit (sepc :: mf.toList) = none := by
            simp only [propSplit]
            rw [List.takeWhile_cons_of_neg (by simp [hsepq])]
            rfl
          rw [hps]
          rfl
        | cons c1 kt =>
          have hkl' : stripL isPyWs pre = c1 :: kt := hkl
          have hkws : isPyWs c1 = false := stripL_head_false hkl'
          have hkeymem : ∀ x ∈ (c1 :: kt : List Char),
              (!(x = '=' || x = ':') : Bool) = true := by
            intro x hx
            have hx2 : x ∈ pre := mem_stripL (l := pre) (by rw [hkl']; exact hx)
            rw [hpre] at hx2
            exact List.mem_takeWhile_imp
              (p := fun c => !(c = '=' || c = ':')) hx2
          have hl2 : (List.dropWhile isPyWs pre).head? = some c1 :=
            rstripL_head (by exact hkl')
          have hzcomm : List.dropWhile isPyWs pre =
              (List.dropWhile isPyWs line.toList).takeWhile
                (fun c => !(c = '=' || c = ':')) := by
            rw [hpre]
            exact dropWhile_takeWhile_comm (fun c hcws => pyWs_not_sep hcws) line.toList
          rw [hzcomm] at hl2
          have hzhead : (List.dropWhile isPyWs line.toList).head? = some c1 := by
            cases hzl : (List.dropWhile isPyWs line.toList).takeWhile
                (fun c => !(c = '=' || c = ':')) with
            | nil => rw [hzl] at hl2; cases hl2
            | cons a as =>
              rw [hzl] at hl2
              injection hl2 with ha
              rw [← ha]
              exact takeWhile_head hzl
          obtain ⟨ztail, hz⟩ : ∃ zt, List.dropWhile isPyWs line.toList = c1 :: zt := by
            cases hz0 : List.dropWhile isPyWs line.toList with
            | nil => rw [hz0] at hzhead; cases hzhead
            | cons a as =>
              rw [hz0] at hzhead
              injection hzhead with ha
              exact ⟨as, by rw [ha]⟩
          have hstripline : (pyStrip line).toList = c1 :: rstripL isPyWs ztail := by
            show stripL isPyWs line.toList = _
            unfold stripL lstripL
            rw [hz]
            exact rstripL_cons_of_neg ztail hkws
          have hcf : (decide (pyStrip line = "") || pyStartsWith (pyStrip line) "#"
              || pyStartsWith (pyStrip line) "!") = false := Bool.eq_false_iff.mpr hc
          have h3 := Bool.or_eq_false_iff.mp hcf
          have h12 := Bool.or_eq_false_iff.mp h3.1
          have hch : c1 ≠ '#' := ne_of_not_startsWith hstripline rfl h12.2
          have hcb : c1 ≠ '!' := ne_of_not_startsWith hstripline rfl h3.2
          have houtl : (pyStrip ⟨pre⟩ ++ (⟨[sepc]⟩ : String) ++ mf).toList =
              c1 :: (kt ++ sepc :: mf.toList) := by
            show (pyStrip ⟨pre⟩ ++ (⟨[sepc]⟩ : String) ++ mf).data = _
            rw [String.data_append, String.data_append,
              show (pyStrip (⟨pre⟩ : String)).data = c1 :: kt from hkl]
            simp
          have hne := pyStrip_ne_empty houtl hkws
          have hns := pyStrip_not_startsWith houtl hkws (s := "#") rfl hch
          have hnb := pyStrip_not_startsWith houtl hkws (s := "!") rfl hcb
          simp only [propStep, decide_eq_false hne, hns, hnb, Bool.or_self,
            Bool.or_false, Bool.false_or, if_false]
          rw [houtl]
          have hps : propSplit (c1 :: (kt ++ sepc :: mf.toList)) =
              some (c1 :: kt, sepc, mf.toList) := by
            simp only [propSplit]
            have htw : (c1 :: (kt ++ sepc :: mf.toList)).takeWhile
                (fun c => !(c = '=' || c = ':')) = c1 :: kt := by
              rw [show c1 :: (kt ++ sepc :: mf.toList) =
                (c1 :: kt) ++ sepc :: mf.toList from rfl]
              exact takeWhile_append_stop _ hkeymem hsepq
            rw [htw]
            rw [show c1 :: (kt ++ sepc :: mf.toList) =
              (c1 :: kt) ++ sepc :: mf.toList from rfl]
            rw [List.drop_left]
            rfl
          rw [hps]
          show (if should_mask m (pyStrip ⟨c1 :: kt⟩)
              (some (pyStrip ⟨mf.toList⟩)) = true then _ else _ :
              String × List MaskingItem).2 = []
          rw [mk_toList, pyStrip_star mf hm1 hm2,
            should_mask_star_guard m _ hm1 hm2]
          rfl
      split at hstep
      · rename_i hsm
        split at hstep
        · rename_i hsepc
          injection hstep with e1 e2
          subst e1
          exact hmain '=' (Or.inl rfl)
        · rename_i hsepc
          injection hstep with e1 e2
          subst e1
          exact hmain ':' (Or.inr rfl)
      · rename_i hsm
        injection hstep with e1 e2
        subst e1
        show (propStep m mf n' line).2 = []
        simp only [propStep]
        rw [if_neg hc, heq]
        show (if should_mask m (pyStrip ⟨pre⟩) (some (pyStrip ⟨rest⟩)) = true
          then _ else _ : String × List MaskingItem).2 = []
        rw [if_neg hsm]


theorem propGo_idem (m : SensitivePatternMatcher) {mf : String}
    (hm1 : pyStartsWith mf "***" = true) (hm2 : pyEndsWith mf "***" = true) :
    ∀ (lines : List String) (n n' : Nat),
      (propGo m mf n' ((propGo m mf n lines).1)).2 = []
  | [], _, _ => rfl
  | line :: rest, n, n' => by
    show ((propStep m mf n' ((propStep m mf n line).1)).2 ++
      (propGo m mf (n' + 1) ((propGo m mf (n + 1) rest).1)).2) = []
    rw [propStep_idem m hm1 hm2 n n' line, propGo_idem m hm1 hm2 rest (n + 1) (n' + 1)]
    rfl

theorem envGo_idem (m : SensitivePatternMatcher) {mf : String}
    (hm1 : pyStartsWith mf "***" = true) (hm2 : pyEndsWith mf "***" = true) :
    ∀ (lines : List String) (n n' : Nat),
      (envGo m mf n' ((envGo m mf n lines).1)).2 = []
  | [], _, _ => rfl
  | line :: rest, n, n' => by
    show ((envStep m mf n' ((envStep m mf n line).1)).2 ++
      (envGo m mf (n' + 1) ((envGo m mf (n + 1) rest).1)).2) = []
    rw [envStep_idem m hm1 hm2 n n' line, envGo_idem m hm1 hm2 rest (n + 1) (n' + 1)]
    rfl

theorem propStep_no_newline (m : SensitivePatternMatcher) (mf : String) (n : Nat)
    (line : String) (hl : '\n' ∉ line.toList) (hmf : '\n' ∉ mf.toList) :
    '\n' ∉ ((propStep m mf n line).1).toList := by
  rcases hstep : propStep m mf n line with ⟨out, items⟩
  simp only [propStep] at hstep
  split at hstep
  · injection hstep with e1 e2
    subst e1
    exact hl
  · split at hstep
    · injection hstep with e1 e2
      subst e1
      exact hl
    · rename_i pre sep rest heq
      obtain ⟨hpre, hdecomp, _, _⟩ := propSplit_some heq
      have hkeysub : ∀ x ∈ (pyStrip (⟨pre⟩ : String)).toList, x ∈ line.toList := by
        intro x hx
        have hx2 : x ∈ pre := mem_stripL (l := pre) hx
        rw [hdecomp]
        exact List.mem_append_left _ hx2
      have hmain : ∀ sepc : Char, sepc ≠ '\n' →
          '\n' ∉ (pyStrip (⟨pre⟩ : String) ++ (⟨[sepc]⟩ : String) ++ mf).toList := by
        intro sepc hsep hmem
        have hmem2 : ('\n' : Char) ∈ (pyStrip (⟨pre⟩ : String)).data ++
            ([sepc] ++ mf.data) := by
          have hthis : (pyStrip (⟨pre⟩ : String) ++ (⟨[sepc]⟩ : String) ++ mf).toList =
              (pyStrip (⟨pre⟩ : String)).data ++ ([sepc] ++ mf.data) := by
            show (pyStrip (⟨pre⟩ : String) ++ (⟨[sepc]⟩ : String) ++ mf).data = _
            rw [String.data_append, String.data_append]
            simp [List.append_assoc]
          rw [hthis] at hmem
          exact hmem
        rcases List.mem_append.mp hmem2 with h1 | h1
        · exact hl (hkeysub _ h1)
        · rcases List.mem_append.mp h1 with h2 | h2
          · rcases List.mem_singleton.mp h2 with h3
            exact hsep h3.symm
          · exact hmf h2
      split at hstep
      · split at hstep
        · injection hstep with e1 e2
          subst e1
          exact hmain '=' (by decide)
        · injection hstep with e1 e2
          subst e1
          exact hmain ':' (by decide)
      · injection hstep with e1 e2
        subst e1
        exact hl

theorem envStep_no_newline (m : SensitivePatternMatcher) (mf : String) (n : Nat)
    (line : String) (hl : '\n' ∉ line.toList) (hmf : '\n' ∉ mf.toList) :
    '\n' ∉ ((envStep m mf n line).1).toList := by
  rcases hstep : envStep m mf n line with ⟨out, items⟩
  simp only [envStep] at hstep
  split at hstep
  · injection hstep with e1 e2
    subst e1
    exact hl
  · split at hstep
    · injection hstep with e1 e2
      subst e1
      exact hl
    · rename_i exp key raw heq
      split at hstep
      · injection hstep with e1 e2
        subst e1
        obtain ⟨hline, _, _⟩ := envSplit_some heq
        intro hmem
        have hdat : ((⟨exp⟩ : String) ++ ⟨key⟩ ++ "=\"" ++ mf ++ "\"").toList =
            exp ++ (key ++ ('=' :: '"' :: (mf.data ++ ['"']))) := by
          show ((⟨exp⟩ : String) ++ ⟨key⟩ ++ "=\"" ++ mf ++ "\"").data = _
          rw [String.data_append, String.data_append, String.data_append,
            String.data_append,
            show ("=\"" : String).data = ['=', '"'] from rfl,
            show ("\"" : String).data = ['"'] from rfl]
          simp [List.append_assoc]
        rw [hdat] at hmem
        rcases List.mem_append.mp hmem with h1 | h1
        · exact hl (by
            rw [hline]
            exact List.mem_append.mpr (Or.inl (List.mem_append.mpr (Or.inl h1))))
        · rcases List.mem_append.mp h1 with h2 | h2
          · exact hl (by
              rw [hline]
              exact List.mem_append.mpr (Or.inl (List.mem_append.mpr (Or.inr h2))))
          · rcases List.mem_cons.mp h2 with h3 | h3
            · exact absurd h3 (by decide)
            · rcases List.mem_cons.mp h3 with h4 | h4
              · exact absurd h4 (by decide)
              · rcases List.mem_append.mp h4 with h5 | h5
                · exact hmf h5
                · exact absurd (List.mem_singleton.mp h5) (by decide)
      · injection hstep with e1 e2
        subst e1
        exact hl


theorem splitCharL_ne_nil (c : Char) : ∀ l : List Char, splitCharL c l ≠ []
  | [] => by simp [splitCharL]
  | x :: xs => by
    simp only [splitCharL]
    cases hr : splitCharL c xs with
    | nil => simp
    | cons h t =>
      by_cases hx : x = c <;> simp [hx]

theorem splitCharL_cons_self (c : Char) (r : List Char) :
    splitCharL c (c :: r) = [] :: splitCharL c r := by
  simp only [splitCharL]
  cases hr : splitCharL c r with
  | nil => exact absurd hr (splitCharL_ne_nil c r)
  | cons h t => simp

theorem splitCharL_append_cons (c : Char) :
    ∀ (p : List Char), c ∉ p → ∀ r : List Char,
      splitCharL c (p ++ c :: r) = p :: splitCharL c r
  | [], _, r => by
    rw [List.nil_append]
    exact splitCharL_cons_self c r
  | x :: p', hc, r => by
    have hx : ¬ x = c := fun he => hc (he ▸ List.mem_cons_self x p')
    have hp' : c ∉ p' := fun hm => hc (List.mem_cons_of_mem x hm)
    rw [List.cons_append]
    simp only [splitCharL]
    rw [splitCharL_append_cons c p' hp' r]
    simp [hx]

theorem splitCharL_join (c : Char) :
    ∀ ps : List (List Char), ps ≠ [] → (∀ p ∈ ps, c ∉ p) →
      splitCharL c (joinWith [c] ps) = ps
  | [], hne, _ => absurd rfl hne
  | [p], _, hall => by
    show splitCharL c p = [p]
    exact splitCharL_single (hall p (List.mem_singleton.mpr rfl))
  | p :: p' :: t, _, hall => by
    show splitCharL c (p ++ [c] ++ joinWith [c] (p' :: t)) = p :: (p' :: t)
    rw [List.append_assoc, List.singleton_append,
      splitCharL_append_cons c p (hall p (List.mem_cons_self p (p' :: t))),
      splitCharL_join c (p' :: t) (by simp)
        (fun q hq => hall q (List.mem_cons_of_mem p hq))]

theorem map_mk_toList : ∀ ls : List String,
    (ls.map String.toList).map (fun l => (⟨l⟩ : String)) = ls
  | [] => rfl
  | s :: rest => by
    simp only [List.map_cons, mk_toList, map_mk_toList rest]

theorem splitLines_joinLines (ls : List String) (hne : ls ≠ [])
    (h : ∀ l ∈ ls, '\n' ∉ l.toList) : splitLines (joinLines ls) = ls := by
  show (splitCharL '\n' (joinWith ['\n'] (ls.map String.toList))).map
    (fun l => (⟨l⟩ : String)) = ls
  rw [splitCharL_join '\n' (ls.map String.toList)
    (by
      intro he
      exact hne (List.map_eq_nil_iff.mp he))
    (by
      intro p hp
      obtain ⟨l, hl, hpl⟩ := List.mem_map.mp hp
      rw [← hpl]
      exact h l hl)]
  exact map_mk_toList ls

theorem splitLines_no_newline (s : String) :
    ∀ l ∈ splitLines s, '\n' ∉ l.toList := by
  intro l hl
  obtain ⟨p, hp, hpl⟩ := List.mem_map.mp hl
  rw [← hpl]
  have hgen : ∀ (l0 : List Char), ∀ q ∈ splitCharL '\n' l0, '\n' ∉ q := by
    intro l0
    induction l0 with
    | nil =>
      intro q hq
      rcases List.mem_singleton.mp hq with rfl
      simp
    | cons x xs ih =>
      intro q hq
      simp only [splitCharL] at hq
      cases hr : splitCharL '\n' xs with
      | nil => exact absurd hr (splitCharL_ne_nil '\n' xs)
      | cons h t =>
        rw [hr] at hq
        change q ∈ (if x = '\n' then [] :: h :: t else (x :: h) :: t) at hq
        by_cases hx : x = '\n'
        · rw [if_pos hx] at hq
          rcases List.mem_cons.mp hq with rfl | hq2
          · simp
          · exact ih q (by rw [hr]; exact hq2)
        · rw [if_neg hx] at hq
          rcases List.mem_cons.mp hq with rfl | hq2
          · intro hmem
            rcases List.mem_cons.mp hmem with he | hm
            · exact hx he.symm
            · exact ih h (by rw [hr]; exact List.mem_cons_self h t) hm
          · exact ih q (by rw [hr]; exact List.mem_cons_of_mem h hq2)
  exact hgen s.toList p hp

theorem splitLines_ne_nil (s : String) : splitLines s ≠ [] := by
  intro he
  exact splitCharL_ne_nil '\n' s.toList (List.map_eq_nil_iff.mp he)

theorem propGo_no_newline (m : SensitivePatternMatcher) (mf : String)
    (hmf : '\n' ∉ mf.toList) :
    ∀ (lines : List String) (n : Nat), (∀ l ∈ lines, '\n' ∉ l.toList) →
      ∀ l' ∈ (propGo m mf n lines).1, '\n' ∉ l'.toList
  | [], _, _ => by intro l' hl'; cases hl'
  | line :: rest, n, hall => by
    intro l' hl'
    rcases List.mem_cons.mp hl' with rfl | hm
    · exact propStep_no_newline m mf n line
        (hall line (List.mem_cons_self line rest)) hmf
    · exact propGo_no_newline m mf hmf rest (n + 1)
        (fun l hl => hall l (List.mem_cons_of_mem line hl)) l' hm

theorem envGo_no_newline (m : SensitivePatternMatcher) (mf : String)
    (hmf : '\n' ∉ mf.toList) :
    ∀ (lines : List String) (n : Nat), (∀ l ∈ lines, '\n' ∉ l.toList) →
      ∀ l' ∈ (envGo m mf n lines).1, '\n' ∉ l'.toList
  | [], _, _ => by intro l' hl'; cases hl'
  | line :: rest, n, hall => by
    intro l' hl'
    rcases List.mem_cons.mp hl' with rfl | hm
    · exact envStep_no_newline m mf n line
        (hall line (List.mem_cons_self line rest)) hmf
    · exact envGo_no_newline m mf hmf rest (n + 1)
        (fun l hl => hall l (List.mem_cons_of_mem line hl)) l' hm

theorem propGo_fst_ne_nil (m : SensitivePatternMatcher) (mf : String) (n : Nat)
    {lines : List String} (h : lines ≠ []) : (propGo m mf n lines).1 ≠ [] := by
  cases lines with
  | nil => exact absurd rfl h
  | cons l rest => simp [propGo]

theorem envGo_fst_ne_nil (m : SensitivePatternMatcher) (mf : String) (n : Nat)
    {lines : List String} (h : lines ≠ []) : (envGo m mf n lines).1 ≠ [] := by
  cases lines with
  | nil => exact absurd rfl h
  | cons l rest => simp [envGo]


/-- Matcher with key pattern `password` and value pattern `pass`
(anchored match, as the engine compiles value patterns). -/
def c5Matcher : SensitivePatternMatcher :=
  ⟨[fun k => containsStr k "password"], [fun v => pyStartsWith v "pass"], [], []⟩

/-- C5, counterexample: (a) with the mask sentinel configured as
`HIDDEN`, a value equal to the sentinel is still maskable —
`should_mask` tests the literal `***` wrapping, not the configured
sentinel — and re-running the properties masker on its own output
emits a NEW item; (b) even with the default `***MASKED***`, re-running
the YAML masker on its own output can emit a new item (the
first-occurrence replacement garbled `password: pass`, leaving a
value-pattern match behind). -/
theorem sentinel_idempotence_cex :
    should_mask pwMatcher "password" (some "HIDDEN") = true ∧
    (propMaskContent pwMatcher "HIDDEN"
      (propMaskContent pwMatcher "HIDDEN" "password=x").1).2 =
      [⟨1, "password", "HIDDEN", "properties"⟩] ∧
    (yamlMaskContent c5Matcher "***MASKED***"
      (yamlMaskContent c5Matcher "***MASKED***" "password: pass").1).2 ≠ [] := by
  decide

/-- C5, amended: `should_mask` returns false when the value is absent
or empty, and when the value starts AND ends with the literal `***`
(which covers the default sentinel `***MASKED***` but not arbitrary
configured sentinels); consequently re-running PropertiesMasker or
EnvMasker `mask_content` on its own output emits zero new items
whenever the configured mask format is `***`-wrapped and
newline-free. (YamlMasker is NOT idempotent in general — see the
counterexample.) -/
theorem should_mask_guard_idempotence :
    (∀ (m : SensitivePatternMatcher) (k : String),
      should_mask m k none = false ∧ should_mask m k (some "") = false) ∧
    (∀ (m : SensitivePatternMatcher) (k v : String),
      pyStartsWith v "***" = true → pyEndsWith v "***" = true →
      should_mask m k (some v) = false) ∧
    (∀ (m : SensitivePatternMatcher) (mf content : String),
      pyStartsWith mf "***" = true → pyEndsWith mf "***" = true →
      containsChar mf '\n' = false →
      (propMaskContent m mf (propMaskContent m mf content).1).2 = [] ∧
      (envMaskContent m mf (envMaskContent m mf content).1).2 = []) := by
  refine ⟨fun m k => ⟨rfl, by simp [should_mask]⟩,
    fun m k v h1 h2 => should_mask_star_guard m k h1 h2, ?_⟩
  intro m mf content hm1 hm2 hnl
  have hmfnl : '\n' ∉ mf.toList := by
    intro hmem
    simp [containsChar, List.any_eq_true] at hnl
    exact hnl '\n' hmem rfl
  constructor
  · show (propGo m mf 1 (splitLines (joinLines
      (propGo m mf 1 (splitLines content)).1))).2 = []
    rw [splitLines_joinLines _
      (propGo_fst_ne_nil m mf 1 (splitLines_ne_nil content))
      (propGo_no_newline m mf hmfnl (splitLines content) 1
        (splitLines_no_newline content))]
    exact propGo_idem m hm1 hm2 (splitLines content) 1 1
  · show (envGo m mf 1 (splitLines (joinLines
      (envGo m mf 1 (splitLines content)).1))).2 = []
    rw [splitLines_joinLines _
      (envGo_fst_ne_nil m mf 1 (splitLines_ne_nil content))
      (envGo_no_newline m mf hmfnl (splitLines content) 1
        (splitLines_no_newline content))]
    exact envGo_idem m hm1 hm2 (splitLines content) 1 1

/-- C5, witness: the guard and the idempotence at the default sentinel
`***MASKED***` on concrete content. -/
theorem should_mask_guard_idempotence_witness :
    (should_mask pwMatcher "password" none = false ∧
     should_mask pwMatcher "password" (some "") = false) ∧
    should_mask pwMatcher "password" (some "***MASKED***") = false ∧
    ((propMaskContent pwMatcher "***MASKED***"
        (propMaskContent pwMatcher "***MASKED***"
          "db.password=s3cr3t\nexport password=b").1).2 = [] ∧
     (envMaskContent pwMatcher "***MASKED***"
        (envMaskContent pwMatcher "***MASKED***"
          "db.password=s3cr3t\nexport password=b").1).2 = []) :=
  ⟨should_mask_guard_idempotence.1 pwMatcher "password",
   should_mask_guard_idempotence.2.1 pwMatcher "password" "***MASKED***"
     (by decide) (by decide),
   should_mask_guard_idempotence.2.2 pwMatcher "***MASKED***"
     "db.password=s3cr3t\nexport password=b" (by decide) (by decide) (by decide)⟩


/-! ## Dictionary lemmas for the backup manager -/

theorem find?_map_set {α : Type} {d : List (String × α)} {k : String} {v : α}
    (hany : d.any (fun e => e.1 = k) = true) :
    (d.map (fun e => if e.1 = k then (k, v) else e)).find?
      (fun e => e.1 = k) = some (k, v) := by
  induction d with
  | nil => cases hany
  | cons a t ih =>
    by_cases ha : a.1 = k
    · simp [List.find?, ha]
    · have ht : t.any (fun e => e.1 = k) = true := by
        simp only [List.any_cons, Bool.or_eq_true, decide_eq_true_eq] at hany
        rcases hany with h | h
        · exact absurd h ha
        · exact h
      simp only [List.map_cons, if_neg ha, List.find?]
      rw [show (decide (a.1 = k)) = false by simp [ha]]
      exact ih ht

theorem find?_append_single {α : Type} {d : List (String × α)} {k : String}
    (hnone : d.any (fun e => e.1 = k) = false) (v : α) :
    (d ++ [(k, v)]).find? (fun e => e.1 = k) = some (k, v) := by
  induction d with
  | nil => simp [List.find?]
  | cons a t ih =>
    simp only [List.any_cons, Bool.or_eq_false_iff] at hnone
    simp only [List.cons_append, List.find?, hnone.1]
    exact ih hnone.2

theorem dGet_dSet_self {α : Type} (d : List (String × α)) (k : String) (v : α) :
    dGet (dSet d k v) k = some v := by
  unfold dSet
  split
  · rename_i hany
    unfold dGet
    rw [find?_map_set hany]
    rfl
  · rename_i hany
    unfold dGet
    rw [find?_append_single (Bool.eq_false_iff.mpr hany) v]
    rfl

theorem find?_map_set_ne {α : Type} {d : List (String × α)} {k k' : String} {v : α}
    (h : k' ≠ k) :
    (d.map (fun e => if e.1 = k' then (k', v) else e)).find? (fun e => e.1 = k) =
      d.find? (fun e => e.1 = k) := by
  induction d with
  | nil => rfl
  | cons a t ih =>
    by_cases ha : a.1 = k'
    · have hak : ¬ a.1 = k := by rw [ha]; exact h
      simp only [List.map_cons, if_pos ha, List.find?]
      rw [show (decide (k' = k)) = false by simp [h],
        show (decide (a.1 = k)) = false by simp [hak]]
      exact ih
    · simp only [List.map_cons, if_neg ha, List.find?]
      by_cases hak : a.1 = k
      · rw [show (decide (a.1 = k)) = true by simp [hak]]
      · rw [show (decide (a.1 = k)) = false by simp [hak]]
        exact ih

theorem find?_append_single_ne {α : Type} {d : List (String × α)} {k k' : String}
    {v : α} (h : k' ≠ k) :
    (d ++ [(k', v)]).find? (fun e => e.1 = k) = d.find? (fun e => e.1 = k) := by
  induction d with
  | nil =>
    simp only [List.nil_append, List.find?]
    rw [show (decide (k' = k)) = false by simp [h]]
  | cons a t ih =>
    simp only [List.cons_append, List.find?]
    by_cases hak : a.1 = k
    · rw [show (decide (a.1 = k)) = true by simp [hak]]
    · rw [show (decide (a.1 = k)) = false by simp [hak]]
      exact ih

theorem dGet_dSet_ne {α : Type} (d : List (String × α)) {k k' : String} (v : α)
    (h : k' ≠ k) : dGet (dSet d k' v) k = dGet d k := by
  unfold dSet
  split
  · unfold dGet
    rw [find?_map_set_ne h]
  · unfold dGet
    rw [find?_append_single_ne h]


theorem dGet_nil {α : Type} (k : String) : dGet ([] : List (String × α)) k = none := rfl

theorem dSet_nil {α : Type} (k : String) (v : α) :
    dSet ([] : List (String × α)) k v = [(k, v)] := rfl

theorem dGet_single_self {α : Type} (k : String) (v : α) :
    dGet [(k, v)] k = some v := by
  simp [dGet, List.find?]

theorem dSet_single_self {α : Type} (k : String) (v v' : α) :
    dSet [(k, v)] k v' = [(k, v')] := by
  simp [dSet]

/-- State after one backup of `file` (content `c1`) under `root` at
time `ts1`, starting from a fresh manager over a file system holding
only `file`. -/
def oneBackupState (bm : BackupManager) (file root c1 ts1 : String) : BackupState :=
  ⟨dSet [(file, c1)] (getBackupPath bm file root ts1) c1,
   [(manifestPath bm root, [(file, getBackupPath bm file root ts1)])],
   [(file, getBackupPath bm file root ts1)]⟩

/-- State after the caller rewrites `file` to `c2` and a second backup
runs at time `ts2`. -/
def twoBackupState (bm : BackupManager) (file root c1 c2 ts1 ts2 : String) : BackupState :=
  ⟨dSet (dSet (dSet [(file, c1)] (getBackupPath bm file root ts1) c1) file c2)
     (getBackupPath bm file root ts2) c2,
   [(manifestPath bm root, [(file, getBackupPath bm file root ts2)])],
   [(file, getBackupPath bm file root ts2)]⟩

/-- C8: two successive `create_backup` calls on the same file (the file
rewritten to `c2` in between) leave the persisted manifest mapping the
file to the SECOND backup path only; `restore_all` then restores
exactly the second snapshot's content `c2` to the original path and
reports exactly that file; and a missing manifest makes `restore_all`
return an empty list rather than an error. -/
theorem backup_twice_restore_latest (bm : BackupManager)
    (file root c1 c2 ts1 ts2 : String) :
    create_backup bm ⟨[(file, c1)], [], []⟩ file root ts1 =
      some (oneBackupState bm file root c1 ts1, getBackupPath bm file root ts1) ∧
    create_backup bm
        ⟨dSet (dSet [(file, c1)] (getBackupPath bm file root ts1) c1) file c2,
         [(manifestPath bm root, [(file, getBackupPath bm file root ts1)])],
         [(file, getBackupPath bm file root ts1)]⟩
        file root ts2 =
      some (twoBackupState bm file root c1 c2 ts1 ts2,
        getBackupPath bm file root ts2) ∧
    get_latest_backup bm (twoBackupState bm file root c1 c2 ts1 ts2) file root =
      some (getBackupPath bm file root ts2) ∧
    restore_all bm (twoBackupState bm file root c1 c2 ts1 ts2) root =
      ({ twoBackupState bm file root c1 c2 ts1 ts2 with
         fs := dSet (twoBackupState bm file root c1 c2 ts1 ts2).fs file c2 },
       [file]) ∧
    dGet (dSet (twoBackupState bm file root c1 c2 ts1 ts2).fs file c2) file =
      some c2 ∧
    (∀ (st : BackupState) (root2 : String),
      dGet st.manifests (manifestPath bm root2) = none →
      restore_all bm st root2 = (st, [])) := by
  refine ⟨?_, ?_, ?_, ?_, dGet_dSet_self _ file c2, ?_⟩
  · simp only [create_backup, dGet_single_self, saveManifest, dGet_nil,
      Option.getD_none, dUpdate, List.foldl_cons, List.foldl_nil, dSet_nil,
      oneBackupState]
  · have h1 : dGet (dSet (dSet [(file, c1)]
        (getBackupPath bm file root ts1) c1) file c2) file = some c2 :=
      dGet_dSet_self _ file c2
    simp only [create_backup, h1, saveManifest, dGet_single_self,
      Option.getD_some, dUpdate, List.foldl_cons, List.foldl_nil,
      dSet_single_self, twoBackupState]
  · simp only [get_latest_backup, twoBackupState, dGet_single_self]
  · have h2 : dGet (dSet (dSet (dSet [(file, c1)]
        (getBackupPath bm file root ts1) c1) file c2)
        (getBackupPath bm file root ts2) c2)
        (getBackupPath bm file root ts2) = some c2 := dGet_dSet_self _ _ c2
    simp only [restore_all, twoBackupState, dGet_single_self,
      List.foldl_cons, List.foldl_nil, h2, List.nil_append]
  · intro st root2 h
    simp only [restore_all, h]


/-- C8, witness: the two-backup scenario run on a concrete manager,
file and root: restore reports exactly the file and yields the second
content. -/
theorem backup_twice_restore_latest_witness :
    (restore_all ⟨".masking_backup", ".backup"⟩
      (twoBackupState ⟨".masking_backup", ".backup"⟩ "/p/app.env" "/p" "a" "b"
        "t1" "t2") "/p").2 = ["/p/app.env"] ∧
    dGet ((restore_all ⟨".masking_backup", ".backup"⟩
      (twoBackupState ⟨".masking_backup", ".backup"⟩ "/p/app.env" "/p" "a" "b"
        "t1" "t2") "/p").1.fs) "/p/app.env" = some "b" := by
  have h := backup_twice_restore_latest ⟨".masking_backup", ".backup"⟩
    "/p/app.env" "/p" "a" "b" "t1" "t2"
  constructor
  · rw [h.2.2.2.1]
  · rw [h.2.2.2.1]
    exact h.2.2.2.2.1

/-! ## C9 -/

mutual
/-- No entry scanned below `rel` in tree `t` passes through an excluded
directory, provided `rel` itself is clean. -/
theorem scanTree_excl (sc : FileScanner) :
    ∀ (t : FsTree) (rel : List String),
      (∀ d ∈ rel, shouldExcludeDir sc d = false) →
      ∀ e ∈ scanTree sc rel t, ∀ d ∈ e.1, shouldExcludeDir sc d = false
  | .node sub files, rel, hrel, e, he, d, hd => by
    rcases List.mem_append.mp he with h1 | h1
    · obtain ⟨f, hf, hfe⟩ := List.mem_filterMap.mp h1
      split at hfe
      · obtain rfl : (rel, f) = e := Option.some.inj hfe
        exact hrel d hd
      · cases hfe
    · exact scanForest_excl sc sub rel hrel e h1 d hd

/-- Forest version of `scanTree_excl`: excluded subdirectories are
dropped from the frontier before descent. -/
theorem scanForest_excl (sc : FileScanner) :
    ∀ (f : FsForest) (rel : List String),
      (∀ d ∈ rel, shouldExcludeDir sc d = false) →
      ∀ e ∈ scanForest sc rel f, ∀ d ∈ e.1, shouldExcludeDir sc d = false
  | .nil, rel, hrel, e, he, d, hd => by cases he
  | .cons nm t rest, rel, hrel, e, he, d, hd => by
    rcases List.mem_append.mp he with h1 | h1
    · by_cases hex : shouldExcludeDir sc nm = true
      · rw [if_pos hex] at h1
        cases h1
      · rw [if_neg hex] at h1
        refine scanTree_excl sc t (rel ++ [nm]) ?_ e h1 d hd
        intro d' hd'
        rcases List.mem_append.mp hd' with h2 | h2
        · exact hrel d' h2
        · rw [List.mem_singleton.mp h2]
          exact Bool.eq_false_iff.mpr hex
    · exact scanForest_excl sc rest rel hrel e h1 d hd
end

/-- Scanner with default pattern `app.yml` and excluded directory
`build`. -/
def c9Scanner : FileScanner :=
  ⟨[fun f => f = "app.yml"], ["build"], [], []⟩

/-- Tree with a clean directory `src` holding `app.yml`, and an
excluded directory `build` whose non-excluded child `inner` also holds
a matching `app.yml`. -/
def c9Tree : FsTree :=
  .node
    (.cons "src" (.node .nil ["app.yml"])
      (.cons "build" (.node (.cons "inner" (.node .nil ["app.yml"]) .nil) [])
        .nil))
    []

/-- C9: `FileScanner.scan` never yields a file from the subtree of an
excluded (or dot-named) directory: every yielded entry's directory
chain is free of excluded names — even when an excluded directory has
non-excluded children with matching files, as the concrete conjunct
shows (only `src/app.yml` is yielded from `c9Tree`; nothing under
`build`, including `build/inner/app.yml`). -/
theorem scan_prunes_excluded (sc : FileScanner) (t : FsTree)
    (e : List String × String) (he : e ∈ scanTree sc [] t) :
    e.1.all (fun d => !shouldExcludeDir sc d) = true ∧
    scanTree c9Scanner [] c9Tree = [(["src"], "app.yml")] := by
  constructor
  · rw [List.all_eq_true]
    intro d hd
    rw [scanTree_excl sc t [] (by intro d' hd'; cases hd') e he d hd]
    rfl
  · decide

/-- C9, witness: the entry yielded from the concrete tree has a clean
directory chain. -/
theorem scan_prunes_excluded_witness :
    ((["src"], "app.yml") : List String × String).1.all
      (fun d => !shouldExcludeDir c9Scanner d) = true ∧
    scanTree c9Scanner [] c9Tree = [(["src"], "app.yml")] :=
  scan_prunes_excluded c9Scanner c9Tree (["src"], "app.yml") (by decide)


/-! ## C10 -/

theorem append_right_ne {a b : String} (s : String) (h : a ≠ b) :
    a ++ s ≠ b ++ s := by
  intro he
  apply h
  have hd := congrArg String.data he
  rw [String.data_append, String.data_append] at hd
  exact String.ext (List.append_cancel_right hd)

theorem dGet_single_ne {α : Type} {k' k : String} (v : α) (h : k' ≠ k) :
    dGet [(k', v)] k = none := by
  simp [dGet, List.find?, h]

theorem dSet_single_ne {α : Type} {k2 k : String} (v2 v : α) (h : k2 ≠ k) :
    dSet [(k2, v2)] k v = [(k2, v2), (k, v)] := by
  simp [dSet, h]

theorem dGet_cons_head {α : Type} (k : String) (v : α) (t : List (String × α)) :
    dGet ((k, v) :: t) k = some v := by
  simp [dGet, List.find?]

theorem dSet_pair_head {α : Type} {k k2 : String} (v v2 v' : α) (h : k2 ≠ k) :
    dSet [(k, v), (k2, v2)] k v' = [(k, v'), (k2, v2)] := by
  simp [dSet, h]

theorem dGet_cons_ne {α : Type} {k1 k : String} (v1 : α) (t : List (String × α))
    (h : k1 ≠ k) : dGet ((k1, v1) :: t) k = dGet t k := by
  simp [dGet, List.find?, h]

/-- C10: one `BackupManager` instance backing up under two different
roots writes, under the second root, the union of that root's existing
on-disk manifest `M0` and the instance's ENTIRE in-memory manifest —
including the first root's entry `file1 ↦ backup1`, not only the entry
for the file just backed up. -/
theorem manifest_cross_root_union (bm : BackupManager)
    (file1 root1 file2 root2 c1 c2 ts1 ts2 : String)
    (M0 : List (String × String))
    (hroot : root1 ≠ root2)
    (hfile : file1 ≠ file2)
    (hf2b : file2 ≠ getBackupPath bm file1 root1 ts1) :
    ∃ st1 st2 : BackupState,
      create_backup bm ⟨[(file1, c1), (file2, c2)],
          [(manifestPath bm root2, M0)], []⟩ file1 root1 ts1 =
        some (st1, getBackupPath bm file1 root1 ts1) ∧
      create_backup bm st1 file2 root2 ts2 =
        some (st2, getBackupPath bm file2 root2 ts2) ∧
      dGet st2.manifests (manifestPath bm root2) =
        some (dUpdate M0 [(file1, getBackupPath bm file1 root1 ts1),
                          (file2, getBackupPath bm file2 root2 ts2)]) ∧
      dGet (dUpdate M0 [(file1, getBackupPath bm file1 root1 ts1),
                        (file2, getBackupPath bm file2 root2 ts2)]) file1 =
        some (getBackupPath bm file1 root1 ts1) ∧
      dGet (dUpdate M0 [(file1, getBackupPath bm file1 root1 ts1),
                        (file2, getBackupPath bm file2 root2 ts2)]) file2 =
        some (getBackupPath bm file2 root2 ts2) := by
  have hmp : manifestPath bm root1 ≠ manifestPath bm root2 := by
    unfold manifestPath getBackupDir
    exact append_right_ne _ (append_right_ne _ (append_right_ne _ hroot))
  refine ⟨⟨dSet [(file1, c1), (file2, c2)] (getBackupPath bm file1 root1 ts1) c1,
      [(manifestPath bm root2, M0),
       (manifestPath bm root1, [(file1, getBackupPath bm file1 root1 ts1)])],
      [(file1, getBackupPath bm file1 root1 ts1)]⟩,
    ⟨dSet (dSet [(file1, c1), (file2, c2)] (getBackupPath bm file1 root1 ts1) c1)
        (getBackupPath bm file2 root2 ts2) c2,
      [(manifestPath bm root2,
        dUpdate M0 [(file1, getBackupPath bm file1 root1 ts1),
                    (file2, getBackupPath bm file2 root2 ts2)]),
       (manifestPath bm root1, [(file1, getBackupPath bm file1 root1 ts1)])],
      [(file1, getBackupPath bm file1 root1 ts1),
       (file2, getBackupPath bm file2 root2 ts2)]⟩, ?_, ?_, ?_, ?_, ?_⟩
  · simp only [create_backup,
      show dGet [(file1, c1), (file2, c2)] file1 = some c1 from
        dGet_cons_head file1 c1 _,
      saveManifest,
      show dGet [(manifestPath bm root2, M0)] (manifestPath bm root1) = none from
        dGet_single_ne M0 (Ne.symm hmp),
      Option.getD_none, dUpdate, List.foldl_cons, List.foldl_nil, dSet_nil,
      dSet_single_ne M0 _ (Ne.symm hmp)]
  · have hget2 : dGet (dSet [(file1, c1), (file2, c2)]
        (getBackupPath bm file1 root1 ts1) c1) file2 = some c2 := by
      rw [dGet_dSet_ne _ c1 (Ne.symm hf2b),
        dGet_cons_ne c1 _ hfile, dGet_cons_head]
    simp only [create_backup, hget2, saveManifest,
      dGet_cons_head, Option.getD_some, dUpdate, List.foldl_cons,
      List.foldl_nil,
      dSet_single_ne (getBackupPath bm file1 root1 ts1) _ hfile]
    rw [dSet_pair_head M0 [(file1, getBackupPath bm file1 root1 ts1)]
      (dSet (dSet M0 file1 (getBackupPath bm file1 root1 ts1)) file2
        (getBackupPath bm file2 root2 ts2)) hmp]
  · exact dGet_cons_head _ _ _
  · show dGet (dSet (dSet M0 file1 (getBackupPath bm file1 root1 ts1)) file2
      (getBackupPath bm file2 root2 ts2)) file1 = _
    rw [dGet_dSet_ne _ _ (Ne.symm hfile), dGet_dSet_self]
  · show dGet (dSet (dSet M0 file1 (getBackupPath bm file1 root1 ts1)) file2
      (getBackupPath bm file2 root2 ts2)) file2 = _
    rw [dGet_dSet_self]


/-- C10, witness: the cross-root leak at a concrete manager, two files
under two roots, and an empty pre-existing manifest under the second
root. -/
theorem manifest_cross_root_union_witness :
    ∃ st1 st2 : BackupState,
      create_backup ⟨".masking_backup", ".backup"⟩
          ⟨[("/p1/a.env", "x"), ("/p2/b.env", "y")],
           [(manifestPath ⟨".masking_backup", ".backup"⟩ "/p2", [])], []⟩
          "/p1/a.env" "/p1" "t1" =
        some (st1, getBackupPath ⟨".masking_backup", ".backup"⟩
          "/p1/a.env" "/p1" "t1") ∧
      create_backup ⟨".masking_backup", ".backup"⟩ st1 "/p2/b.env" "/p2" "t2" =
        some (st2, getBackupPath ⟨".masking_backup", ".backup"⟩
          "/p2/b.env" "/p2" "t2") ∧
      dGet st2.manifests (manifestPath ⟨".masking_backup", ".backup"⟩ "/p2") =
        some (dUpdate []
          [("/p1/a.env", getBackupPath ⟨".masking_backup", ".backup"⟩
              "/p1/a.env" "/p1" "t1"),
           ("/p2/b.env", getBackupPath ⟨".masking_backup", ".backup"⟩
              "/p2/b.env" "/p2" "t2")]) ∧
      dGet (dUpdate []
          [("/p1/a.env", getBackupPath ⟨".masking_backup", ".backup"⟩
              "/p1/a.env" "/p1" "t1"),
           ("/p2/b.env", getBackupPath ⟨".masking_backup", ".backup"⟩
              "/p2/b.env" "/p2" "t2")]) "/p1/a.env" =
        some (getBackupPath ⟨".masking_backup", ".backup"⟩
          "/p1/a.env" "/p1" "t1") ∧
      dGet (dUpdate []
          [("/p1/a.env", getBackupPath ⟨".masking_backup", ".backup"⟩
              "/p1/a.env" "/p1" "t1"),
           ("/p2/b.env", getBackupPath ⟨".masking_backup", ".backup"⟩
              "/p2/b.env" "/p2" "t2")]) "/p2/b.env" =
        some (getBackupPath ⟨".masking_backup", ".backup"⟩
          "/p2/b.env" "/p2" "t2") :=
  manifest_cross_root_union ⟨".masking_backup", ".backup"⟩ "/p1/a.env" "/p1"
    "/p2/b.env" "/p2" "x" "y" "t1" "t2" [] (by decide) (by decide) (by decide)


/-- C1, witness: the totality/no-error result at one concrete engine,
path and content. -/
theorem mask_file_total_no_error_witness :
    (mask_file ⟨pwMatcher, "***MASKED***"⟩ "conf/app.yml"
      "password: hunter2").error = none ∧
    ((mask_file ⟨pwMatcher, "***MASKED***"⟩ "conf/app.yml"
      "password: hunter2").error.isSome = true →
      (mask_file ⟨pwMatcher, "***MASKED***"⟩ "conf/app.yml"
        "password: hunter2").masked_content = "password: hunter2") ∧
    ((mask_file ⟨pwMatcher, "***MASKED***"⟩ "conf/app.yml"
      "password: hunter2").is_success = true ↔
      (mask_file ⟨pwMatcher, "***MASKED***"⟩ "conf/app.yml"
        "password: hunter2").error = none) :=
  mask_file_total_no_error ⟨pwMatcher, "***MASKED***"⟩ "conf/app.yml"
    "password: hunter2"

end Masking
